import Mathlib

/-!
Verification of the NarrativeShield analysis pipeline
(backend/app/pipeline): risk scoring, lexicon scoring, text cleaning,
ingestion normalization, temporal trends, narrative repetition and the
coordinated-behaviour (bot) detector, shallowly embedded in Lean.
Python float arithmetic is embedded as exact arithmetic over `ℚ`
(and `ℝ` where the source computes square roots or logarithms).
-/

namespace NarrativeShield

/-! ## Rounding

Python's builtin `round` (used via `Series.round(2)` in risk.py and
`round(x, 2)` in bot_detection.py) rounds half to even. -/

/-- Round a rational to the nearest integer, ties to even (Python `round`). -/
def rhe (x : ℚ) : ℤ :=
  if x - (⌊x⌋ : ℚ) < 1/2 then ⌊x⌋
  else if 1/2 < x - (⌊x⌋ : ℚ) then ⌊x⌋ + 1
  else if 2 ∣ ⌊x⌋ then ⌊x⌋ else ⌊x⌋ + 1

/-- Python `round(x, 2)`: round to 2 decimal places, ties to even. -/
def round2 (x : ℚ) : ℚ := (rhe (x * 100) : ℚ) / 100

theorem rhe_nonneg {x : ℚ} (hx : 0 ≤ x) : 0 ≤ rhe x := by
  unfold rhe
  have h0 : (0 : ℤ) ≤ ⌊x⌋ := by positivity
  split
  · exact h0
  · split
    · omega
    · split <;> omega

theorem rhe_le {x : ℚ} {B : ℤ} (hx : x ≤ (B : ℚ)) : rhe x ≤ B := by
  unfold rhe
  have hfB : ⌊x⌋ ≤ B := by
    have := Int.floor_le_floor (α := ℚ) hx
    simpa using this
  split
  · exact hfB
  · -- in the remaining branches the fractional part is ≥ 1/2, so ⌊x⌋ < B
    rename_i hhalf
    have hlt : ⌊x⌋ < B := by
      by_contra hge
      have hfeq : ⌊x⌋ = B := le_antisymm hfB (by omega)
      have hfl : (B : ℚ) ≤ x := by
        have := Int.floor_le x
        rw [hfeq] at this; exact_mod_cast this
      have hxB : x = (B : ℚ) := le_antisymm hx hfl
      rw [hxB] at hhalf
      simp [Int.floor_intCast] at hhalf
    split
    · omega
    · split <;> omega

theorem round2_nonneg {x : ℚ} (hx : 0 ≤ x) : 0 ≤ round2 x := by
  unfold round2
  have : (0 : ℤ) ≤ rhe (x * 100) := rhe_nonneg (by positivity)
  positivity

theorem round2_le_100 {x : ℚ} (hx : x ≤ 100) : round2 x ≤ 100 := by
  unfold round2
  have h : rhe (x * 100) ≤ (10000 : ℤ) := rhe_le (by push_cast; linarith)
  rw [div_le_iff₀ (by norm_num)]
  calc ((rhe (x * 100) : ℚ)) ≤ (10000 : ℚ) := by exact_mod_cast h
    _ = 100 * 100 := by norm_num

/-! ## Risk aggregation (risk.py)

`apply_explainable_risk_scoring` consumes a table whose rows carry the
four extracted signals and adds the four normalized components, the
rounded risk score and the binned risk label.  The `explanation` string
column (a formatted listing of the components ≥ 35) is not modelled:
no claim refers to it. -/

/-- The per-record signal inputs of `apply_explainable_risk_scoring`. -/
structure SignalRow where
  sentiment_compound : ℚ
  keyword_suspicion_score : ℚ
  emotional_intensity_score : ℚ
  max_narrative_similarity : ℚ
deriving Repr, DecidableEq

/-- The per-record outputs added by `apply_explainable_risk_scoring`. -/
structure RiskRow where
  sentiment_component : ℚ
  keyword_component : ℚ
  emotion_component : ℚ
  narrative_component : ℚ
  risk_score : ℚ
  risk_label : Option String
deriving Repr, DecidableEq

/-- Pandas `Series.max()` over a column; `0.0` for an empty series
(risk.py `_normalize_series_to_100` line 8). -/
def seriesMax : List ℚ → ℚ
  | [] => 0
  | x :: xs => xs.foldl max x

/-- Risk.py `_normalize_series_to_100`, applied to one cell `v` of a series
whose maximum is `m`: zero when the maximum is ≤ 0, else `(v / m) * 100`. -/
def normalizeTo100 (m v : ℚ) : ℚ :=
  if m ≤ 0 then 0 else v / m * 100

/-- Risk.py lines 49-53: `pd.cut(risk_score, bins=[-1, 35, 70, 100],
labels=[...])`.  `pd.cut` bins into right-closed intervals; a value
outside `(-1, 100]` gets no label (NaN). -/
def riskLabel (x : ℚ) : Option String :=
  if -1 < x ∧ x ≤ 35 then some "Low Risk"
  else if 35 < x ∧ x ≤ 70 then some "Medium Risk"
  else if 70 < x ∧ x ≤ 100 then some "High Risk"
  else none

/-- Risk.py `apply_explainable_risk_scoring`: the four components, the
risk score (mean of the components rounded to 2 decimals) and the label. -/
def applyExplainableRiskScoring (rows : List SignalRow) : List RiskRow :=
  let kmax := seriesMax (rows.map (·.keyword_suspicion_score))
  let emax := seriesMax (rows.map (·.emotional_intensity_score))
  rows.map fun r =>
    let sc := max (-r.sentiment_compound) 0 * 100
    let kc := normalizeTo100 kmax r.keyword_suspicion_score
    let ec := normalizeTo100 emax r.emotional_intensity_score
    let nc := min (max r.max_narrative_similarity 0) 1 * 100
    let score := round2 ((sc + kc + ec + nc) / 4)
    { sentiment_component := sc
      keyword_component := kc
      emotion_component := ec
      narrative_component := nc
      risk_score := score
      risk_label := riskLabel score }

theorem le_foldl_max {α : Type} [LinearOrder α] {x : α} :
    ∀ (ys : List α) (b : α), (x ≤ b ∨ x ∈ ys) → x ≤ ys.foldl max b := by
  intro ys
  induction ys with
  | nil =>
    intro b h
    rcases h with h | h
    · simpa using h
    · cases h
  | cons c cs ih =>
    intro b h
    rcases h with h | h
    · exact ih (max b c) (Or.inl (le_trans h (le_max_left b c)))
    · rcases List.mem_cons.mp h with rfl | h
      · exact ih (max b x) (Or.inl (le_max_right b x))
      · exact ih (max b c) (Or.inr h)

theorem le_seriesMax {l : List ℚ} {x : ℚ} (hx : x ∈ l) : x ≤ seriesMax l := by
  match l with
  | [] => cases hx
  | a :: xs =>
    show x ≤ xs.foldl max a
    rcases List.mem_cons.mp hx with rfl | h
    · exact le_foldl_max xs x (Or.inl le_rfl)
    · exact le_foldl_max xs a (Or.inr h)

theorem normalizeTo100_bounds {m v : ℚ} (h0 : 0 ≤ v) (hm : v ≤ m) :
    0 ≤ normalizeTo100 m v ∧ normalizeTo100 m v ≤ 100 := by
  unfold normalizeTo100
  split
  · exact ⟨le_refl 0, by norm_num⟩
  · rename_i hpos
    push_neg at hpos
    constructor
    · positivity
    · have : v / m ≤ 1 := (div_le_one hpos).mpr hm
      nlinarith

/-- C1: in the table produced by `apply_explainable_risk_scoring` on
signal rows satisfying the SignalSet invariants (sentiment compound in
[-1,1], nonnegative keyword and emotion scores), every record's four
components lie in [0,100], the risk score is the exact mean of the four
components rounded to 2 decimals, and hence also lies in [0,100]. -/
theorem C1_risk_components_bounded_and_mean (rows : List SignalRow)
    (h : ∀ r ∈ rows, -1 ≤ r.sentiment_compound ∧ r.sentiment_compound ≤ 1 ∧
        0 ≤ r.keyword_suspicion_score ∧ 0 ≤ r.emotional_intensity_score) :
    ∀ i : ℕ, ((applyExplainableRiskScoring rows)[i]?).elim True fun out =>
      (0 ≤ out.sentiment_component ∧ out.sentiment_component ≤ 100) ∧
      (0 ≤ out.keyword_component ∧ out.keyword_component ≤ 100) ∧
      (0 ≤ out.emotion_component ∧ out.emotion_component ≤ 100) ∧
      (0 ≤ out.narrative_component ∧ out.narrative_component ≤ 100) ∧
      out.risk_score = round2 ((out.sentiment_component + out.keyword_component +
        out.emotion_component + out.narrative_component) / 4) ∧
      0 ≤ out.risk_score ∧ out.risk_score ≤ 100 := by
  intro i
  simp only [applyExplainableRiskScoring, List.getElem?_map]
  cases hr : rows[i]? with
  | none => simp
  | some r =>
    have hmem : r ∈ rows := by
      have := List.getElem?_eq_some.mp hr
      obtain ⟨hi, hget⟩ := this
      exact hget ▸ List.getElem_mem hi
    obtain ⟨hs1, hs2, hk0, he0⟩ := h r hmem
    simp only [Option.elim]
    have hscb : 0 ≤ max (-r.sentiment_compound) 0 * 100 ∧
        max (-r.sentiment_compound) 0 * 100 ≤ 100 := by
      constructor
      · have : (0:ℚ) ≤ max (-r.sentiment_compound) 0 := le_max_right _ _
        positivity
      · have : max (-r.sentiment_compound) 0 ≤ 1 := by
          apply max_le <;> linarith
        linarith
    have hkcb := normalizeTo100_bounds (m := seriesMax (rows.map (·.keyword_suspicion_score)))
      hk0 (le_seriesMax (List.mem_map_of_mem _ hmem))
    have hecb := normalizeTo100_bounds (m := seriesMax (rows.map (·.emotional_intensity_score)))
      he0 (le_seriesMax (List.mem_map_of_mem _ hmem))
    have hncb : 0 ≤ min (max r.max_narrative_similarity 0) 1 * 100 ∧
        min (max r.max_narrative_similarity 0) 1 * 100 ≤ 100 := by
      constructor
      · have h1 : (0:ℚ) ≤ max r.max_narrative_similarity 0 := le_max_right _ _
        have : (0:ℚ) ≤ min (max r.max_narrative_similarity 0) 1 := le_min h1 (by norm_num)
        positivity
      · have : min (max r.max_narrative_similarity 0) 1 ≤ 1 := min_le_right _ _
        linarith
    refine ⟨hscb, hkcb, hecb, hncb, rfl, ?_, ?_⟩
    · exact round2_nonneg (by
        have := hscb.1; have := hkcb.1; have := hecb.1; have := hncb.1
        linarith)
    · exact round2_le_100 (by
        have := hscb.2; have := hkcb.2; have := hecb.2; have := hncb.2
        linarith)

/-- C1 witness: the theorem applied at a concrete one-row table. -/
theorem C1_risk_components_bounded_and_mean_witness :
    ((applyExplainableRiskScoring [⟨0, 2, 3, 1⟩])[0]?).elim True fun out =>
      (0 ≤ out.sentiment_component ∧ out.sentiment_component ≤ 100) ∧
      (0 ≤ out.keyword_component ∧ out.keyword_component ≤ 100) ∧
      (0 ≤ out.emotion_component ∧ out.emotion_component ≤ 100) ∧
      (0 ≤ out.narrative_component ∧ out.narrative_component ≤ 100) ∧
      out.risk_score = round2 ((out.sentiment_component + out.keyword_component +
        out.emotion_component + out.narrative_component) / 4) ∧
      0 ≤ out.risk_score ∧ out.risk_score ≤ 100 :=
  C1_risk_components_bounded_and_mean [⟨0, 2, 3, 1⟩] (by decide) 0

/-- C2: `risk_label` is a pure function of `risk_score` (every output row's
label is `riskLabel` of its score) with fixed right-closed edges 35 and 70:
scores in (-1,35] map to "Low Risk", (35,70] to "Medium Risk",
(70,100] to "High Risk"; in particular 35.00 is Low, 35.01 Medium,
70.00 Medium and 70.01 High. -/
theorem C2_risk_label_fixed_edges :
    (∀ (rows : List SignalRow) (i : ℕ),
      ((applyExplainableRiskScoring rows)[i]?).elim True fun out =>
        out.risk_label = riskLabel out.risk_score) ∧
    (∀ x : ℚ, (-1 < x → x ≤ 35 → riskLabel x = some "Low Risk") ∧
      (35 < x → x ≤ 70 → riskLabel x = some "Medium Risk") ∧
      (70 < x → x ≤ 100 → riskLabel x = some "High Risk")) ∧
    riskLabel 35 = some "Low Risk" ∧
    riskLabel (3501/100) = some "Medium Risk" ∧
    riskLabel 70 = some "Medium Risk" ∧
    riskLabel (7001/100) = some "High Risk" := by
  refine ⟨?_, ?_, by norm_num [riskLabel], by norm_num [riskLabel],
    by norm_num [riskLabel], by norm_num [riskLabel]⟩
  · intro rows i
    simp only [applyExplainableRiskScoring, List.getElem?_map]
    cases hr : rows[i]? with
    | none => simp
    | some r => simp [Option.elim]
  · intro x
    refine ⟨fun h1 h2 => ?_, fun h1 h2 => ?_, fun h1 h2 => ?_⟩
    · simp only [riskLabel]
      rw [if_pos ⟨h1, h2⟩]
    · simp only [riskLabel]
      rw [if_neg (by rintro ⟨-, hle⟩; linarith), if_pos ⟨h1, h2⟩]
    · simp only [riskLabel]
      rw [if_neg (by rintro ⟨-, hle⟩; linarith),
        if_neg (by rintro ⟨-, hle⟩; linarith), if_pos ⟨h1, h2⟩]

/-! ## Text cleaning (preprocessing.py)

`clean_text_series` applies, in order: URL removal, @mention removal,
#hashtag removal, emoji removal, special-character removal, lowercasing,
whitespace collapsing and trimming.  Each regex substitution replaces a
match with a single space.  Texts are modelled as `String`; the regex
character classes `\w` and `\s` are modelled at their ASCII meaning
(the corpora the pipeline scores are cleaned ASCII text). -/

/-- Python regex `\w` (word character), ASCII range. -/
def isWordChar (c : Char) : Bool := c.isAlphanum || c = '_'

/-- Python regex `\s` (whitespace), ASCII range. -/
def isSpaceChar (c : Char) : Bool :=
  c = ' ' || c = '\t' || c = '\n' || c = '\r' || c = '\x0b' || c = '\x0c'

/-- Case-insensitive prefix test for the `re.IGNORECASE` URL pattern. -/
def isPrefixCI (p : List Char) (s : List Char) : Bool :=
  (p.map Char.toLower).isPrefixOf (s.map Char.toLower)

/-- One match attempt of `URL_RE = https?://\S+|www\.\S+` (IGNORECASE) at the
head of `s`: the number of characters matched, if any.  The `http` branch is
tried first, then the `www.` branch; `\S+` greedily takes ≥ 1 non-space. -/
def urlMatch (s : List Char) : Option ℕ :=
  let tail (k : ℕ) : Option ℕ :=
    let rest := s.drop k
    let body := rest.takeWhile (fun c => !isSpaceChar c)
    if body.length = 0 then none else some (k + body.length)
  if isPrefixCI "https://".data s then tail 8
  else if isPrefixCI "http://".data s then tail 7
  else if isPrefixCI "www.".data s then tail 4
  else none

/-- One match attempt of `MENTION_RE = @\w+` at the head of `s`. -/
def mentionMatch (s : List Char) : Option ℕ :=
  match s with
  | '@' :: rest =>
    let ws := rest.takeWhile isWordChar
    if ws.length = 0 then none else some (1 + ws.length)
  | _ => none

/-- One match attempt of `HASHTAG_RE = #\w+` at the head of `s`. -/
def hashtagMatch (s : List Char) : Option ℕ :=
  match s with
  | '#' :: rest =>
    let ws := rest.takeWhile isWordChar
    if ws.length = 0 then none else some (1 + ws.length)
  | _ => none

/-- Membership in the code-point ranges of `EMOJI_RE`. -/
def isEmojiChar (c : Char) : Bool :=
  (0x1F600 ≤ c.val && c.val ≤ 0x1F64F) ||
  (0x1F300 ≤ c.val && c.val ≤ 0x1F5FF) ||
  (0x1F680 ≤ c.val && c.val ≤ 0x1F6FF) ||
  (0x1F1E0 ≤ c.val && c.val ≤ 0x1F1FF)

/-- One match attempt of `EMOJI_RE = [ranges]+` at the head of `s`. -/
def emojiMatch (s : List Char) : Option ℕ :=
  let e := s.takeWhile isEmojiChar
  if e.length = 0 then none else some e.length

/-- One match attempt of `WHITESPACE_RE = \s+` at the head of `s`. -/
def wsMatch (s : List Char) : Option ℕ :=
  let e := s.takeWhile isSpaceChar
  if e.length = 0 then none else some e.length

/-- Python `re.sub(pattern, " ", text)` for a matcher that reports how many
characters (at least one) it consumes at a position: scan left to right,
replace each match with one space, resume after the match.  The scan
consumes at least one character per step, so `fuel = length` suffices;
the recursion is structural in the fuel so that it evaluates. -/
def scanSubAux (m : List Char → Option ℕ) : ℕ → List Char → List Char
  | 0, _ => []
  | _, [] => []
  | fuel + 1, c :: rest =>
    match m (c :: rest) with
    | some k => ' ' :: scanSubAux m fuel ((c :: rest).drop (max k 1))
    | none => c :: scanSubAux m fuel rest

/-- Python `re.sub(pattern, " ", text)`, see `scanSubAux`. -/
def scanSub (m : List Char → Option ℕ) (s : List Char) : List Char :=
  scanSubAux m s.length s

/-- preprocessing.py `clean_text_series` applied to one (non-null) text:
URL, mention, hashtag and emoji removal, special characters to spaces,
lowercase, whitespace collapsed to single spaces, trimmed. -/
def cleanText (s : String) : String :=
  let cs := s.data
  let cs := scanSub urlMatch cs
  let cs := scanSub mentionMatch cs
  let cs := scanSub hashtagMatch cs
  let cs := scanSub emojiMatch cs
  let cs := cs.map fun c => if c.isAlphanum || isSpaceChar c then c else ' '
  let cs := cs.map Char.toLower
  let cs := scanSub wsMatch cs
  let cs := (cs.dropWhile isSpaceChar).reverse.dropWhile isSpaceChar |>.reverse
  ⟨cs⟩

/-! ## Lexicon scoring (intelligence.py)

`_term_count` counts the matches of `\b<term>\b` in a text
(`Series.str.count`, case sensitive; the pipeline passes in the already
lowercased `cleaned_text`).  `apply_lexicon_score` accumulates
count × weight per row into a score column and the per-term corpus totals. -/

/-- Word/non-word status of the character before the current position
(`none` at the start of the text). -/
def prevIsWord : Option Char → Bool
  | none => false
  | some c => isWordChar c

/-- Scan for non-overlapping matches of `\b t \b` where `t = t0 :: ts` is the
literal term (`re.escape`d in the source): a match needs the term as prefix,
a word-boundary before (word status changes between the previous character
and the term's first) and one after. -/
def termCountAux (t0 : Char) (ts : List Char) : ℕ → Option Char → List Char → ℕ
  | 0, _, _ => 0
  | _, _, [] => 0
  | fuel + 1, prev, c :: rest =>
    let t := t0 :: ts
    let rem := (c :: rest).drop t.length
    let boundaryBefore := prevIsWord prev != isWordChar t0
    let boundaryAfter := isWordChar (ts.getLastD t0) != prevIsWord rem.head?
    if t.isPrefixOf (c :: rest) && boundaryBefore && boundaryAfter then
      1 + termCountAux t0 ts fuel (some (ts.getLastD t0)) rem
    else
      termCountAux t0 ts fuel (some c) rest

/-- intelligence.py `_term_count` on one cell: the number of non-overlapping
matches of `\b<term>\b` in `text`. -/
def termCount (text term : String) : ℕ :=
  match term.data with
  | [] => 0
  | t0 :: ts => termCountAux t0 ts text.data.length none text.data

/-- intelligence.py `apply_lexicon_score`: per term, the per-row match counts
times the term's weight are accumulated column-wise into the score column
(zero column for an empty lexicon); the per-term corpus-wide totals are
returned alongside. -/
def applyLexiconScore (texts : List String) (lexicon : List (String × ℚ)) :
    List ℚ × List (String × ℕ) :=
  let parts := lexicon.map fun tw => texts.map fun s => (termCount s tw.1 : ℚ) * tw.2
  let freqs := lexicon.map fun tw => (tw.1, (texts.map fun s => termCount s tw.1).sum)
  let scores :=
    match parts with
    | [] => texts.map fun _ => (0 : ℚ)
    | p :: ps => ps.foldl (fun acc q => List.zipWith (· + ·) acc q) p
  (scores, freqs)

theorem zipWith_add_getElem :
    ∀ (a b : List ℚ) (i : ℕ),
      (List.zipWith (· + ·) a b)[i]? =
        (a[i]?).bind fun x => (b[i]?).map fun y => x + y := by
  intro a
  induction a with
  | nil => intro b i; simp
  | cons x xs ih =>
    intro b i
    cases b with
    | nil => simp
    | cons y ys =>
      cases i with
      | zero => simp
      | succ j => simpa using ih ys j

theorem foldl_zipWith_getElem (ls : List (List ℚ)) :
    ∀ (acc : List ℚ), (∀ l ∈ ls, l.length = acc.length) → ∀ i : ℕ,
      (ls.foldl (fun a q => List.zipWith (· + ·) a q) acc)[i]? =
        (acc[i]?).map fun v => v + (ls.map fun l => (l[i]?).getD 0).sum := by
  induction ls with
  | nil =>
    intro acc _ i
    cases h : acc[i]? <;> simp [h]
  | cons l ls ih =>
    intro acc hlen i
    simp only [List.foldl_cons]
    have hl : l.length = acc.length := hlen l (List.mem_cons_self l ls)
    have hlen2 : ∀ l2 ∈ ls, l2.length = (List.zipWith (· + ·) acc l).length := by
      intro l2 h2
      rw [List.length_zipWith]
      have := hlen l2 (List.mem_cons_of_mem _ h2)
      omega
    rw [ih (List.zipWith (· + ·) acc l) hlen2 i, zipWith_add_getElem]
    cases hai : acc[i]? with
    | none => simp
    | some a =>
      have hi : i < acc.length := by
        by_contra hge
        rw [List.getElem?_eq_none (by omega)] at hai
        cases hai
      have hbi : l[i]? = some (l.get ⟨i, by omega⟩) := List.getElem?_eq_getElem (by omega)
      simp only [hbi, Option.map_some', Option.bind_some, Option.some_bind]
      simp only [List.map_cons, List.sum_cons, hbi, Option.getD_some]
      congr 1
      ring

/-- C3: `apply_lexicon_score` accumulates, for every lexicon term and every
row, (word-boundary match count of the term in the row's text) × weight into
the score column, and returns the corpus-wide totals per term; the counting
is by word boundary, not substring, and is case-insensitive for pipeline
texts because the scored column is the lowercased `cleaned_text`: cleaning
"BREAKING: shocking leak" gives "breaking shocking leak", and scoring it
with lexicon {breaking: 1.4, shocking: 1.8} yields 3.2. -/
theorem C3_lexicon_word_boundary_scoring :
    (∀ (texts : List String) (lexicon : List (String × ℚ)) (i : ℕ),
      ((applyLexiconScore texts lexicon).1[i]?).elim True fun v =>
        (texts[i]?).elim True fun s =>
          v = (lexicon.map fun tw => (termCount s tw.1 : ℚ) * tw.2).sum) ∧
    (∀ (texts : List String) (lexicon : List (String × ℚ)),
      (applyLexiconScore texts lexicon).2 =
        lexicon.map fun tw => (tw.1, (texts.map fun s => termCount s tw.1).sum)) ∧
    cleanText "BREAKING: shocking leak" = "breaking shocking leak" ∧
    (applyLexiconScore [cleanText "BREAKING: shocking leak"]
      [("breaking", 7/5), ("shocking", 9/5)]).1 = [16/5] ∧
    (applyLexiconScore [cleanText "BREAKING: shocking leak"]
      [("breaking", 7/5), ("shocking", 9/5)]).2 = [("breaking", 1), ("shocking", 1)] ∧
    termCount "breakingnews breaking" "breaking" = 1 := by
  have hrow : ∀ (texts : List String) (lexicon : List (String × ℚ)) (i : ℕ),
      ((applyLexiconScore texts lexicon).1[i]?).elim True fun v =>
        (texts[i]?).elim True fun s =>
          v = (lexicon.map fun tw => (termCount s tw.1 : ℚ) * tw.2).sum := by
    intro texts lexicon i
    cases lexicon with
    | nil =>
      simp only [applyLexiconScore, List.map_nil, List.getElem?_map]
      cases ht : texts[i]? with
      | none => simp
      | some s => simp
    | cons tw lex =>
      simp only [applyLexiconScore, List.map_cons]
      rw [foldl_zipWith_getElem
        (lex.map fun tw2 => texts.map fun s => (termCount s tw2.1 : ℚ) * tw2.2)
        (texts.map fun s => (termCount s tw.1 : ℚ) * tw.2)
        (by intro l2 h2
            obtain ⟨tw2, -, rfl⟩ := List.mem_map.mp h2
            simp) i]
      rw [List.getElem?_map]
      cases ht : texts[i]? with
      | none => simp
      | some s =>
        simp only [Option.map_some', Option.elim_some, ht]
        simp only [List.map_map, List.map_cons, List.sum_cons]
        congr 1
        congr 1
        apply List.map_congr_left
        intro tw2 _
        simp [Function.comp, List.getElem?_map, ht]
  refine ⟨hrow, fun texts lexicon => rfl, by decide, ?_, by decide, by decide⟩
  · have h1 : termCount (cleanText "BREAKING: shocking leak") "breaking" = 1 := by decide
    have h2 : termCount (cleanText "BREAKING: shocking leak") "shocking" = 1 := by decide
    have := hrow [cleanText "BREAKING: shocking leak"]
      [("breaking", 7/5), ("shocking", 9/5)] 0
    cases hs : (applyLexiconScore [cleanText "BREAKING: shocking leak"]
        [("breaking", 7/5), ("shocking", 9/5)]).1 with
    | nil =>
      exfalso
      have : (applyLexiconScore [cleanText "BREAKING: shocking leak"]
          [("breaking", 7/5), ("shocking", 9/5)]).1.length = 1 := by decide
      rw [hs] at this
      simp at this
    | cons v vs =>
      have hlen : (applyLexiconScore [cleanText "BREAKING: shocking leak"]
          [("breaking", 7/5), ("shocking", 9/5)]).1.length = 1 := by decide
      rw [hs] at hlen
      simp only [List.length_cons] at hlen
      have hvs : vs = [] := List.eq_nil_of_length_eq_zero (by omega)
      subst hvs
      rw [hs] at this
      simp only [List.getElem?_cons_zero, Option.elim_some] at this
      rw [this]
      simp only [List.map_cons, List.map_nil, List.sum_cons, List.sum_nil, h1, h2]
      norm_num

/-! ## Ingestion and normalization (ingestion.py)

`load_kaggle_dataset` resolves title/text/date columns, optionally reads
in chunks, per chunk fills missing values, builds `analysis_text`
(title + " " + text, whitespace collapsed and stripped) and drops rows
whose `analysis_text` is empty; after the full load it drops duplicate
rows by exact `analysis_text` (keeping the first) and parses the date
column leniently (unparsable dates become null).  The table is modelled
after column resolution: a raw row holds the title/text/date cells
(`none` for a missing value); `pd.to_datetime(errors="coerce")` is a
parameter `parseDate`, lenient parsing being a library concern. -/

/-- A raw CSV row after column resolution. -/
structure RawRow where
  title : Option String
  text : Option String
  date : Option String
deriving Repr, DecidableEq

/-- A row produced by `_process_chunk` (date cell still unparsed). -/
structure NormRow where
  title : String
  text : String
  analysis_text : String
  date : Option String
deriving Repr, DecidableEq

/-- A row of the final loaded table (date parsed leniently, as a day
number; `none` when missing/unparsable). -/
structure LoadedRow where
  title : String
  text : String
  analysis_text : String
  date : Option ℤ
deriving Repr, DecidableEq

/-- Pandas `.str.replace(r"\s+", " ", regex=True).str.strip()`. -/
def collapseAndStrip (s : String) : String :=
  ⟨((scanSub wsMatch s.data).dropWhile isSpaceChar).reverse.dropWhile isSpaceChar |>.reverse⟩

/-- ingestion.py `_process_chunk` on one row: fill missing title/text with
"", build `analysis_text`, drop the row when it is empty. -/
def processRow (r : RawRow) : Option NormRow :=
  let title := r.title.getD ""
  let text := r.text.getD ""
  let analysis := collapseAndStrip (title ++ " " ++ text)
  if analysis = "" then none else some ⟨title, text, analysis, r.date⟩

/-- ingestion.py `_process_chunk` on a chunk of rows. -/
def processChunk (chunk : List RawRow) : List NormRow :=
  chunk.filterMap processRow

/-- Split a list into chunks of `max n 1` elements (pandas `chunksize`
reading; the fuel makes the recursion structural). -/
def chunksOfAux {α : Type} (n : ℕ) : ℕ → List α → List (List α)
  | 0, _ => []
  | _, [] => []
  | fuel + 1, x :: xs =>
    (x :: xs).take (max n 1) :: chunksOfAux n fuel ((x :: xs).drop (max n 1))

/-- Split a list into chunks of `max n 1` elements. -/
def chunksOf {α : Type} (n : ℕ) (l : List α) : List (List α) :=
  chunksOfAux n l.length l

/-- Pandas `drop_duplicates(subset=["analysis_text"])`: keep the first row
for each `analysis_text`, `seen` being the keys already kept. -/
def dedupByKey (seen : List String) : List NormRow → List NormRow
  | [] => []
  | r :: rs =>
    if r.analysis_text ∈ seen then dedupByKey seen rs
    else r :: dedupByKey (r.analysis_text :: seen) rs

/-- ingestion.py `load_kaggle_dataset` after column resolution: chunked or
whole-file processing, duplicate dropping by `analysis_text`, lenient date
parsing. -/
def loadKaggleDataset (rows : List RawRow) (chunksize : Option ℕ)
    (parseDate : String → Option ℤ) : List LoadedRow :=
  let processed :=
    match chunksize with
    | some n => if 0 < n then ((chunksOf n rows).map processChunk).flatten else processChunk rows
    | none => processChunk rows
  let deduped := dedupByKey [] processed
  deduped.map fun r => ⟨r.title, r.text, r.analysis_text, r.date.bind parseDate⟩

theorem chunksOfAux_flatten {α : Type} (n : ℕ) :
    ∀ (fuel : ℕ) (l : List α), l.length ≤ fuel → (chunksOfAux n fuel l).flatten = l := by
  intro fuel
  induction fuel with
  | zero =>
    intro l hl
    have : l = [] := List.eq_nil_of_length_eq_zero (by omega)
    subst this
    rfl
  | succ fuel ih =>
    intro l hl
    cases l with
    | nil => rfl
    | cons x xs =>
      simp only [List.length_cons] at hl
      simp only [chunksOfAux, List.flatten_cons]
      rw [ih (((x :: xs).drop (max n 1)))
        (by simp only [List.length_drop, List.length_cons]; omega)]
      exact List.take_append_drop _ _

theorem chunksOf_flatten {α : Type} (n : ℕ) (l : List α) : (chunksOf n l).flatten = l :=
  chunksOfAux_flatten n l.length l le_rfl

theorem filterMap_flatten_chunks (n : ℕ) (rows : List RawRow) :
    ((chunksOf n rows).map processChunk).flatten = processChunk rows := by
  have h : ∀ ls : List (List RawRow), (ls.map processChunk).flatten = processChunk ls.flatten := by
    intro ls
    induction ls with
    | nil => rfl
    | cons c cs ih =>
      simp only [List.map_cons, List.flatten_cons, ih, processChunk, List.filterMap_append]
  rw [h, chunksOf_flatten]

/-- In every branch, the processed table is `processChunk rows`. -/
theorem loadKaggleDataset_eq (rows : List RawRow) (chunksize : Option ℕ)
    (parseDate : String → Option ℤ) :
    loadKaggleDataset rows chunksize parseDate =
      (dedupByKey [] (processChunk rows)).map
        fun r => ⟨r.title, r.text, r.analysis_text, r.date.bind parseDate⟩ := by
  unfold loadKaggleDataset
  cases chunksize with
  | none => rfl
  | some n =>
    by_cases hn : 0 < n
    · simp only [if_pos hn, filterMap_flatten_chunks]
    · simp only [if_neg hn]

theorem dedupByKey_subset {r : NormRow} :
    ∀ (seen : List String) (l : List NormRow), r ∈ dedupByKey seen l → r ∈ l := by
  intro seen l
  induction l generalizing seen with
  | nil => intro h; cases h
  | cons x xs ih =>
    intro h
    simp only [dedupByKey] at h
    split at h
    · exact List.mem_cons_of_mem _ (ih _ h)
    · rcases List.mem_cons.mp h with rfl | h2
      · exact List.mem_cons_self _ _
      · exact List.mem_cons_of_mem _ (ih _ h2)

theorem dedupByKey_nodup :
    ∀ (seen : List String) (l : List NormRow),
      ((dedupByKey seen l).map (·.analysis_text)).Nodup ∧
      ∀ r ∈ dedupByKey seen l, r.analysis_text ∉ seen := by
  intro seen l
  induction l generalizing seen with
  | nil => exact ⟨List.nodup_nil, by intro r h; cases h⟩
  | cons x xs ih =>
    simp only [dedupByKey]
    split
    · rename_i hmem
      refine ⟨(ih seen).1, (ih seen).2⟩
    · rename_i hmem
      obtain ⟨ihn, ihs⟩ := ih (x.analysis_text :: seen)
      constructor
      · simp only [List.map_cons, List.nodup_cons]
        refine ⟨?_, ihn⟩
        intro hx
        obtain ⟨r, hr, hre⟩ := List.mem_map.mp hx
        exact ihs r hr (hre ▸ List.mem_cons_self _ _)
      · intro r hr
        rcases List.mem_cons.mp hr with rfl | hr2
        · exact hmem
        · intro hseen
          exact ihs r hr2 (List.mem_cons_of_mem _ hseen)

theorem dedupByKey_id :
    ∀ (seen : List String) (l : List NormRow),
      (l.map (·.analysis_text)).Nodup → (∀ r ∈ l, r.analysis_text ∉ seen) →
      dedupByKey seen l = l := by
  intro seen l
  induction l generalizing seen with
  | nil => intro _ _; rfl
  | cons x xs ih =>
    intro hnd hdisj
    simp only [List.map_cons, List.nodup_cons] at hnd
    simp only [dedupByKey, if_neg (hdisj x (List.mem_cons_self _ _))]
    congr 1
    apply ih _ hnd.2
    intro r hr
    intro hmem
    rcases List.mem_cons.mp hmem with he | hseen
    · exact hnd.1 (he ▸ List.mem_map_of_mem (·.analysis_text) hr)
    · exact hdisj r (List.mem_cons_of_mem _ hr) hseen

/-- Every row of the loaded table has nonempty `analysis_text`, and that
field is exactly the normalized concatenation of its title and text. -/
theorem loadKaggleDataset_spec (rows : List RawRow) (chunksize : Option ℕ)
    (parseDate : String → Option ℤ) :
    ∀ r ∈ loadKaggleDataset rows chunksize parseDate,
      r.analysis_text ≠ "" ∧
      r.analysis_text = collapseAndStrip (r.title ++ " " ++ r.text) := by
  intro r hr
  rw [loadKaggleDataset_eq] at hr
  obtain ⟨nr, hnr, hre⟩ := List.mem_map.mp hr
  have hnr2 : nr ∈ processChunk rows := dedupByKey_subset _ _ hnr
  obtain ⟨raw, -, hraw⟩ := List.mem_filterMap.mp hnr2
  unfold processRow at hraw
  by_cases he : collapseAndStrip (raw.title.getD "" ++ " " ++ raw.text.getD "") = ""
  · rw [if_pos he] at hraw; cases hraw
  · rw [if_neg he] at hraw
    cases hraw
    subst hre
    exact ⟨he, rfl⟩

theorem filterMap_eq_map_of_some {α β : Type} {f : α → Option β} {g : α → β} :
    ∀ {l : List α}, (∀ x ∈ l, f x = some (g x)) → l.filterMap f = l.map g := by
  intro l
  induction l with
  | nil => intro _; rfl
  | cons x xs ih =>
    intro h
    rw [List.filterMap_cons, h x (List.mem_cons_self _ _), List.map_cons,
      ih fun y hy => h y (List.mem_cons_of_mem _ hy)]

/-- C8: every row of a loaded table has nonempty `analysis_text`, no two
rows share the same `analysis_text`, and ingestion is dedup-idempotent:
re-ingesting the loaded table (its title/text cells as a new source)
yields exactly the same row count. -/
theorem C8_ingestion_nonempty_unique_idempotent (rows : List RawRow)
    (chunksize : Option ℕ) (parseDate : String → Option ℤ) :
    (∀ i : ℕ, ((loadKaggleDataset rows chunksize parseDate)[i]?).elim True
      fun r => r.analysis_text ≠ "") ∧
    ((loadKaggleDataset rows chunksize parseDate).map (·.analysis_text)).Nodup ∧
    (loadKaggleDataset
      ((loadKaggleDataset rows chunksize parseDate).map
        fun r => RawRow.mk (some r.title) (some r.text) none)
      chunksize parseDate).length =
      (loadKaggleDataset rows chunksize parseDate).length := by
  have hnodup : ((loadKaggleDataset rows chunksize parseDate).map (·.analysis_text)).Nodup := by
    rw [loadKaggleDataset_eq, List.map_map]
    exact (dedupByKey_nodup [] (processChunk rows)).1
  refine ⟨?_, hnodup, ?_⟩
  · intro i
    cases hr : (loadKaggleDataset rows chunksize parseDate)[i]? with
    | none => exact trivial
    | some r =>
      obtain ⟨hi, hget⟩ := List.getElem?_eq_some.mp hr
      exact (loadKaggleDataset_spec rows chunksize parseDate r
        (hget ▸ List.getElem_mem hi)).1
  · rw [loadKaggleDataset_eq
      ((loadKaggleDataset rows chunksize parseDate).map
        fun r => RawRow.mk (some r.title) (some r.text) none) chunksize parseDate]
    have hre : processChunk
        ((loadKaggleDataset rows chunksize parseDate).map
          fun r => RawRow.mk (some r.title) (some r.text) none) =
        (loadKaggleDataset rows chunksize parseDate).map
          fun r => NormRow.mk r.title r.text r.analysis_text none := by
      unfold processChunk
      rw [List.filterMap_map]
      apply filterMap_eq_map_of_some
      intro r hr
      obtain ⟨hne, heq⟩ := loadKaggleDataset_spec rows chunksize parseDate r hr
      simp only [Function.comp_apply, processRow, Option.getD_some]
      rw [if_neg (heq ▸ hne)]
      congr 1
      exact congrArg (fun a => NormRow.mk r.title r.text a none) heq.symm
    rw [hre]
    rw [dedupByKey_id []]
    · simp only [List.length_map]
    · rw [List.map_map]
      exact hnodup
    · intro r _ hseen
      cases hseen

/-! ## Temporal trend detection (intelligence.py `detect_temporal_trends`)

Rows with unparsable/missing dates are excluded; the rest are grouped by
calendar day (modelled as a day number; `pd.to_datetime` parsing is
upstream).  Per day: row count (the `title` column never has nulls in the
normalized table, so the pandas count is the group size), mean sentiment
compound, and the number of repetition flags.  The population standard
deviation (`std(ddof=0)`, divisor N) of |avg_sentiment| and of
repeated_narratives across days feeds a z-score per day; a spike is
z ≥ 1.5.  Square roots are embedded in `ℝ`. -/

/-- A row entering `detect_temporal_trends`. -/
structure TRow where
  day : Option ℤ
  sentiment_compound : ℚ
  narrative_repetition_flag : Bool
deriving Repr, DecidableEq

/-- One output bucket of `detect_temporal_trends`. -/
structure TemporalBucket where
  day : ℤ
  article_count : ℕ
  avg_sentiment : ℚ
  repeated_narratives : ℕ
  sentiment_spike : Prop
  narrative_spike : Prop

/-- Python `round(x, 4)` (the output listing rounds `avg_sentiment`). -/
def round4 (x : ℚ) : ℚ := (rhe (x * 10000) : ℚ) / 10000

/-- Mean of a series (pandas `.mean()`). -/
def meanQ (xs : List ℚ) : ℚ := xs.sum / xs.length

/-- Population variance (pandas `.std(ddof=0)` squared): divisor N. -/
def popVar (xs : List ℚ) : ℚ :=
  ((xs.map fun x => (x - xs.sum / xs.length) ^ 2).sum) / xs.length

/-- Insert a day into an ascending list of distinct days. -/
def insertSortedUnique (x : ℤ) : List ℤ → List ℤ
  | [] => [x]
  | y :: ys =>
    if x < y then x :: y :: ys
    else if x = y then y :: ys
    else y :: insertSortedUnique x ys

/-- The distinct days of the valid-dated rows, ascending (pandas `groupby`
sorts its keys; the result is also `sort_values("day")`-sorted). -/
def sortedDays (rows : List TRow) : List ℤ :=
  (rows.filterMap (·.day)).foldl (fun acc d => insertSortedUnique d acc) []

/-- The per-day aggregate of one `groupby("day")` group. -/
structure DayAgg where
  day : ℤ
  article_count : ℕ
  avg_sentiment : ℚ
  repeated : ℕ
deriving Repr, DecidableEq

/-- Aggregate the group of rows of day `d`: count, mean compound, number of
repetition flags (pandas sums the boolean column). -/
def aggFor (rows : List TRow) (d : ℤ) : DayAgg :=
  let g := rows.filter fun r => r.day = some d
  { day := d
    article_count := g.length
    avg_sentiment := (g.map (·.sentiment_compound)).sum / g.length
    repeated := (g.filter (·.narrative_repetition_flag)).length }

/-- The day-level aggregate table, sorted by day. -/
def dayAggs (rows : List TRow) : List DayAgg :=
  (sortedDays rows).map (aggFor rows)

/-- The |avg_sentiment| series across days (`grouped["sentiment_abs"]`). -/
def sentAbsSeries (rows : List TRow) : List ℚ :=
  (dayAggs rows).map fun a => |a.avg_sentiment|

/-- The repeated_narratives series across days. -/
def repsSeries (rows : List TRow) : List ℚ :=
  (dayAggs rows).map fun a => (a.repeated : ℚ)

/-- The z-score of a day value `x` against the across-days mean `μ` and the
population variance `v`, taken as 0 when the standard deviation is 0
(`grouped["sentiment_z"] = ... if sentiment_std > 0 else 0.0`). -/
noncomputable def spikeZ (x μ v : ℚ) : ℝ :=
  if 0 < Real.sqrt v then (((x : ℚ) : ℝ) - ((μ : ℚ) : ℝ)) / Real.sqrt v else 0

/-- One output bucket of `detect_temporal_trends`, given the |avg_sentiment|
series `sabs` and the repeated_narratives series `reps` across days. -/
noncomputable def mkBucket (sabs reps : List ℚ) (a : DayAgg) : TemporalBucket :=
  { day := a.day
    article_count := a.article_count
    avg_sentiment := round4 a.avg_sentiment
    repeated_narratives := a.repeated
    sentiment_spike := spikeZ |a.avg_sentiment| (meanQ sabs) (popVar sabs) ≥ 3/2
    narrative_spike := spikeZ (a.repeated : ℚ) (meanQ reps) (popVar reps) ≥ 3/2 }

/-- intelligence.py `detect_temporal_trends`: `[]` without a date column or
without valid dates; otherwise one bucket per day with spike flags from
z-scores (≥ 1.5) against the across-days mean and population std. -/
noncomputable def detectTemporalTrends (hasDateColumn : Bool) (rows : List TRow) :
    List TemporalBucket :=
  if !hasDateColumn then []
  else if rows.filterMap (·.day) = [] then []
  else
    (dayAggs rows).map (mkBucket (sentAbsSeries rows) (repsSeries rows))

theorem popVar_nonneg (xs : List ℚ) : 0 ≤ popVar xs := by
  unfold popVar
  apply div_nonneg
  · apply List.sum_nonneg
    intro x hx
    obtain ⟨y, -, rfl⟩ := List.mem_map.mp hx
    positivity
  · positivity

/-- The z ≥ 3/2 test, with z the guarded quotient by the root of the
population variance, is equivalent to a rational condition. -/
theorem z_test_iff (x μ v : ℚ) (hv : 0 ≤ v) :
    (spikeZ x μ v ≥ 3/2) ↔
      (0 < v ∧ 0 ≤ x - μ ∧ 9 * v ≤ 4 * (x - μ) ^ 2) := by
  unfold spikeZ
  by_cases hvpos : 0 < v
  · have hs : (0:ℝ) < Real.sqrt v := Real.sqrt_pos.mpr (by exact_mod_cast hvpos)
    rw [if_pos hs]
    have hsq : Real.sqrt (v : ℝ) ^ 2 = (v : ℝ) :=
      Real.sq_sqrt (by exact_mod_cast hv)
    constructor
    · intro h
      have hge : ((x : ℝ) - (μ : ℝ)) ≥ 3/2 * Real.sqrt v := by
        rw [ge_iff_le, le_div_iff₀ hs] at h
        linarith
    -- squaring both sides of a nonnegative inequality
      have hd0 : (0:ℝ) ≤ (x : ℝ) - (μ : ℝ) := le_trans (by positivity) hge
      have hsq2 : (3/2 * Real.sqrt v) ^ 2 ≤ ((x : ℝ) - (μ : ℝ)) ^ 2 := by
        apply sq_le_sq' <;> nlinarith [Real.sqrt_nonneg (v : ℝ)]
      rw [mul_pow, hsq] at hsq2
      refine ⟨hvpos, by exact_mod_cast hd0, ?_⟩
      have : (9:ℝ) * v ≤ 4 * ((x : ℝ) - (μ : ℝ)) ^ 2 := by nlinarith
      have := this
      push_cast at this
      exact_mod_cast this
    · rintro ⟨-, hd0, hsq2⟩
      have hd0R : (0:ℝ) ≤ (x : ℝ) - (μ : ℝ) := by exact_mod_cast hd0
      have hsq2R : (9:ℝ) * v ≤ 4 * ((x : ℝ) - (μ : ℝ)) ^ 2 := by exact_mod_cast hsq2
      rw [ge_iff_le, le_div_iff₀ hs]
      nlinarith [Real.sqrt_nonneg (v : ℝ), hsq, Real.sqrt_pos.mpr hs]
  · have hv0 : v = 0 := le_antisymm (by linarith) hv
    subst hv0
    rw [if_neg (by simp)]
    constructor
    · intro h; norm_num at h
    · rintro ⟨h, -⟩; norm_num at h

/-- C7: the spike tests of `detect_temporal_trends` use the population
standard deviation (divisor N, stated by the first conjunct's explicit
formula), z-scores taken as 0 when that deviation is 0 (then no day is
flagged, since the variance-positivity conjunct fails), and a day is
flagged exactly when its z-score is ≥ 1.5 — an inclusive boundary, as the
equivalence is stated with ≤. -/
theorem C7_temporal_population_std_inclusive_spikes :
    (∀ xs : List ℚ,
      popVar xs = ((xs.map fun x => (x - xs.sum / xs.length) ^ 2).sum) / xs.length) ∧
    ∀ (hasDateColumn : Bool) (rows : List TRow) (k : ℕ),
      ((detectTemporalTrends hasDateColumn rows)[k]?).elim True fun b =>
        ((dayAggs rows)[k]?).elim True fun a =>
          (b.sentiment_spike ↔
            (0 < popVar (sentAbsSeries rows) ∧
              0 ≤ |a.avg_sentiment| - meanQ (sentAbsSeries rows) ∧
              9 * popVar (sentAbsSeries rows) ≤
                4 * (|a.avg_sentiment| - meanQ (sentAbsSeries rows)) ^ 2)) ∧
          (b.narrative_spike ↔
            (0 < popVar (repsSeries rows) ∧
              0 ≤ (a.repeated : ℚ) - meanQ (repsSeries rows) ∧
              9 * popVar (repsSeries rows) ≤
                4 * ((a.repeated : ℚ) - meanQ (repsSeries rows)) ^ 2)) := by
  refine ⟨fun xs => rfl, ?_⟩
  intro hasDateColumn rows k
  cases hasDateColumn with
  | false =>
    show (([] : List TemporalBucket)[k]?).elim True _
    rw [List.getElem?_nil]
    exact trivial
  | true =>
    by_cases hv : rows.filterMap (·.day) = []
    · show ((if !true then ([] : List TemporalBucket) else _)[k]?).elim True _
      rw [if_neg (by simp), if_pos hv, List.getElem?_nil]
      exact trivial
    · show ((if !true then ([] : List TemporalBucket) else _)[k]?).elim True _
      rw [if_neg (by simp), if_neg hv, List.getElem?_map]
      cases ha : (dayAggs rows)[k]? with
      | none => exact trivial
      | some a =>
        simp only [Option.map_some', Option.elim_some, mkBucket]
        refine And.intro ?_ ?_
        · exact z_test_iff |a.avg_sentiment| (meanQ (sentAbsSeries rows))
            (popVar (sentAbsSeries rows)) (popVar_nonneg _)
        · exact z_test_iff (a.repeated : ℚ) (meanQ (repsSeries rows))
            (popVar (repsSeries rows)) (popVar_nonneg _)

/-! ## Narrative repetition (intelligence.py `apply_narrative_repetition`)

The TfidfVectorizer call (`max_features=25000, ngram_range=(1, 2),
stop_words="english"`, the other options at their defaults) is embedded
term by term: lowercasing, the default token pattern (maximal word-char
runs of length ≥ 2), the fixed built-in English stop word list, unigram
and bigram features over the filtered token sequence, smoothed idf
(`ln((1+n)/(1+df)) + 1`) times the raw term count.  Cosine similarity is
computed from the raw weighted vectors (the l2 row normalization of the
transformer does not change cosine); a zero vector gets similarity 0
(sklearn's `normalize` keeps zero rows zero, and in Lean division by the
zero norm also yields 0).  `NearestNeighbors(metric="cosine",
algorithm="brute")` with `k = max(2, min(n_neighbors, n))` returns the k
indices of smallest cosine distance, sorted; ties in distance (whose order
sklearn leaves unspecified) are resolved by ascending index here. -/

/-- The fixed built-in English stop word list of scikit-learn
(`sklearn.feature_extraction.text.ENGLISH_STOP_WORDS`). -/
def englishStopWords : List String :=
  ["a", "about", "above", "across", "after", "afterwards", "again", "against",
   "all", "almost", "alone", "along", "already", "also", "although", "always",
   "am", "among", "amongst", "amoungst", "amount", "an", "and", "another",
   "any", "anyhow", "anyone", "anything", "anyway", "anywhere", "are",
   "around", "as", "at", "back", "be", "became", "because", "become",
   "becomes", "becoming", "been", "before", "beforehand", "behind", "being",
   "below", "beside", "besides", "between", "beyond", "bill", "both",
   "bottom", "but", "by", "call", "can", "cannot", "cant", "co", "con",
   "could", "couldnt", "cry", "de", "describe", "detail", "do", "done",
   "down", "due", "during", "each", "eg", "eight", "either", "eleven",
   "else", "elsewhere", "empty", "enough", "etc", "even", "ever", "every",
   "everyone", "everything", "everywhere", "except", "few", "fifteen",
   "fifty", "fill", "find", "fire", "first", "five", "for", "former",
   "formerly", "forty", "found", "four", "from", "front", "full", "further",
   "get", "give", "go", "had", "has", "hasnt", "have", "he", "hence", "her",
   "here", "hereafter", "hereby", "herein", "hereupon", "hers", "herself",
   "him", "himself", "his", "how", "however", "hundred", "i", "ie", "if",
   "in", "inc", "indeed", "interest", "into", "is", "it", "its", "itself",
   "keep", "last", "latter", "latterly", "least", "less", "ltd", "made",
   "many", "may", "me", "meanwhile", "might", "mill", "mine", "more",
   "moreover", "most", "mostly", "move", "much", "must", "my", "myself",
   "name", "namely", "neither", "never", "nevertheless", "next", "nine",
   "no", "nobody", "none", "noone", "nor", "not", "nothing", "now",
   "nowhere", "of", "off", "often", "on", "once", "one", "only", "onto",
   "or", "other", "others", "otherwise", "our", "ours", "ourselves", "out",
   "over", "own", "part", "per", "perhaps", "please", "put", "rather", "re",
   "same", "see", "seem", "seemed", "seeming", "seems", "serious", "several",
   "she", "should", "show", "side", "since", "sincere", "six", "sixty",
   "so", "some", "somehow", "someone", "something", "sometime", "sometimes",
   "somewhere", "still", "such", "system", "take", "ten", "than", "that",
   "the", "their", "them", "themselves", "then", "thence", "there",
   "thereafter", "thereby", "therefore", "therein", "thereupon", "these",
   "they", "thick", "thin", "third", "this", "those", "though", "three",
   "through", "throughout", "thru", "thus", "to", "together", "too", "top",
   "toward", "towards", "twelve", "twenty", "two", "un", "under", "until",
   "up", "upon", "us", "very", "via", "was", "we", "well", "were", "what",
   "whatever", "when", "whence", "whenever", "where", "whereafter",
   "whereas", "whereby", "wherein", "whereupon", "wherever", "whether",
   "which", "while", "whither", "who", "whoever", "whole", "whom", "whose",
   "why", "will", "with", "within", "without", "would", "yet", "you",
   "your", "yours", "yourself", "yourselves"]

/-- The maximal word-character runs of a character list (the default token
pattern finds maximal `\w`-runs; length filtering comes later).  The fuel
keeps the recursion structural. -/
def wordRunsAux : ℕ → List Char → List String
  | 0, _ => []
  | _, [] => []
  | fuel + 1, c :: rest =>
    if isWordChar c then
      (⟨(c :: rest).takeWhile isWordChar⟩ : String) ::
        wordRunsAux fuel ((c :: rest).dropWhile isWordChar)
    else wordRunsAux fuel rest

/-- The vectorizer's token sequence of one document: lowercase, maximal
word-char runs of length ≥ 2 (token pattern `\b\w\w+\b`), stop words
removed. -/
def vocabTokens (s : String) : List String :=
  (((wordRunsAux (s.data.map Char.toLower).length (s.data.map Char.toLower)).filter
    fun w => 2 ≤ w.length).filter fun w => w ∉ englishStopWords)

/-- The n-gram feature sequence of a document for `ngram_range=(1, 2)`:
the tokens and the bigrams of consecutive (post stop-word-filter) tokens. -/
def ngramsOf (s : String) : List String :=
  vocabTokens s ++ ((vocabTokens s).zip (vocabTokens s).tail).map fun p => p.1 ++ " " ++ p.2

/-- Raw term frequency of feature `t` in document `d`. -/
def tf (d t : String) : ℕ := (ngramsOf d).count t

/-- Corpus-wide term frequency of a feature (used by `max_features`). -/
def termTotal (docs : List String) (t : String) : ℕ :=
  ((docs.map ngramsOf).flatten).count t

/-- Document frequency of a feature. -/
def docFreq (docs : List String) (t : String) : ℕ :=
  (docs.filter fun d => 0 < tf d t).length

/-- Keep the first occurrence of each element. -/
def firstSeenAux {α : Type} [DecidableEq α] (seen : List α) : List α → List α
  | [] => []
  | x :: xs => if x ∈ seen then firstSeenAux seen xs else x :: firstSeenAux (x :: seen) xs

/-- Keep the first occurrence of each element. -/
def firstSeen {α : Type} [DecidableEq α] (l : List α) : List α := firstSeenAux [] l

/-- The fitted vocabulary: the distinct n-gram features of the corpus;
when more than `max_features` exist, the `max_features` of highest corpus
frequency are kept (sklearn leaves the order among frequency ties
unspecified; first-seen order is used here).  The vocabulary's own order
is immaterial: it only indexes coordinates of the weight vectors. -/
def vocabulary (docs : List String) (maxF : ℕ) : List String :=
  if (firstSeen ((docs.map ngramsOf).flatten)).length ≤ maxF then
    firstSeen ((docs.map ngramsOf).flatten)
  else
    (List.insertionSort (fun a b => termTotal docs b ≤ termTotal docs a)
      (firstSeen ((docs.map ngramsOf).flatten))).take maxF

/-- Smoothed idf (`smooth_idf=True`): `ln((1+n)/(1+df)) + 1`. -/
noncomputable def idf (docs : List String) (t : String) : ℝ :=
  Real.log ((1 + docs.length : ℝ) / ((1 : ℝ) + docFreq docs t)) + 1

/-- The tf-idf weight of feature `t` for document `d`. -/
noncomputable def tfidfWeight (docs : List String) (d t : String) : ℝ :=
  (tf d t : ℝ) * idf docs t

/-- Dot product of two documents' tf-idf vectors over the vocabulary. -/
noncomputable def dotW (docs : List String) (maxF : ℕ) (d1 d2 : String) : ℝ :=
  ∑ t ∈ (vocabulary docs maxF).toFinset, tfidfWeight docs d1 t * tfidfWeight docs d2 t

/-- Squared euclidean norm of a document's tf-idf vector. -/
noncomputable def normSq (docs : List String) (maxF : ℕ) (d : String) : ℝ :=
  ∑ t ∈ (vocabulary docs maxF).toFinset, tfidfWeight docs d t ^ 2

/-- Cosine similarity of two documents (zero when either vector is zero:
`0 / 0 = 0` in Lean, matching sklearn's zero-norm handling). -/
noncomputable def cosSim (docs : List String) (maxF : ℕ) (d1 d2 : String) : ℝ :=
  dotW docs maxF d1 d2 / (Real.sqrt (normSq docs maxF d1) * Real.sqrt (normSq docs maxF d2))

/-- Similarity between corpus rows `i` and `j` (`1 - cosine distance`). -/
noncomputable def simIJ (texts : List String) (maxF i j : ℕ) : ℝ :=
  cosSim texts maxF (texts.getD i "") (texts.getD j "")

/-- Cosine distance between corpus rows `i` and `j`. -/
noncomputable def distIJ (texts : List String) (maxF i j : ℕ) : ℝ :=
  1 - simIJ texts maxF i j

/-- Neighbor ordering for row `i`: ascending cosine distance, ties by
ascending index. -/
def neighborRel (texts : List String) (maxF i : ℕ) (j1 j2 : ℕ) : Prop :=
  distIJ texts maxF i j1 < distIJ texts maxF i j2 ∨
    (distIJ texts maxF i j1 = distIJ texts maxF i j2 ∧ j1 ≤ j2)

/-- All row indices sorted in the neighbor order of row `i`. -/
noncomputable def neighborOrder (texts : List String) (maxF i : ℕ) : List ℕ :=
  letI : DecidableRel (neighborRel texts maxF i) := Classical.decRel _
  List.insertionSort (neighborRel texts maxF i) (List.range texts.length)

/-- `max(2, min(n_neighbors, n))`, the `neighbor_count` of the source. -/
def kOf (nn n : ℕ) : ℕ := max 2 (min nn n)

/-- The k nearest neighbors of row `i` (the row itself may be among them). -/
noncomputable def topkNeighbors (texts : List String) (maxF nn i : ℕ) : List ℕ :=
  (neighborOrder texts maxF i).take (kOf nn texts.length)

/-- `row_sims[mask].max() if mask.any() else 0.0`. -/
noncomputable def maxSimOf (f : ℕ → ℝ) : List ℕ → ℝ
  | [] => 0
  | j :: js => (js.map f).foldl max (f j)

/-- `max_narrative_similarity` of row `i`: the largest similarity among its
k nearest neighbors after excluding the row's own index. -/
noncomputable def maxNarrativeSimilarity (texts : List String) (maxF nn i : ℕ) : ℝ :=
  maxSimOf (simIJ texts maxF i) ((topkNeighbors texts maxF nn i).filter fun j => j ≠ i)

/-- intelligence.py `apply_narrative_repetition` on the text column: fewer
than 2 rows short-circuit to similarity 0 / flag False with no
vectorization; a corpus whose documents yield no feature makes
`fit_transform` raise (empty vocabulary); otherwise each row gets its
maximal non-self neighbor similarity and the `≥ threshold` flag. -/
noncomputable def applyNarrativeRepetition (texts : List String) (threshold : ℝ)
    (maxF nn : ℕ) : Except String (List (ℝ × Prop)) :=
  if texts.length < 2 then Except.ok (texts.map fun _ => ((0 : ℝ), False))
  else if vocabulary texts maxF = [] then
    Except.error "empty vocabulary; perhaps the documents only contain stop words"
  else Except.ok ((List.range texts.length).map fun i =>
    (maxNarrativeSimilarity texts maxF nn i,
      maxNarrativeSimilarity texts maxF nn i ≥ threshold))

theorem foldl_max_le {α : Type} [LinearOrder α] {B : α} :
    ∀ (ys : List α) (b : α), b ≤ B → (∀ y ∈ ys, y ≤ B) → ys.foldl max b ≤ B := by
  intro ys
  induction ys with
  | nil => intro b hb _; simpa using hb
  | cons c cs ih =>
    intro b hb h
    exact ih (max b c) (max_le hb (h c (List.mem_cons_self _ _)))
      fun y hy => h y (List.mem_cons_of_mem _ hy)

theorem le_maxSimOf (f : ℕ → ℝ) {l : List ℕ} {m : ℕ} (hm : m ∈ l) :
    f m ≤ maxSimOf f l := by
  match l with
  | [] => cases hm
  | j :: js =>
    show f m ≤ (js.map f).foldl max (f j)
    rcases List.mem_cons.mp hm with rfl | h
    · exact le_foldl_max _ _ (Or.inl le_rfl)
    · exact le_foldl_max _ _ (Or.inr (List.mem_map_of_mem f h))

theorem maxSimOf_le (f : ℕ → ℝ) {l : List ℕ} {B : ℝ} (hB : 0 ≤ B)
    (h : ∀ m ∈ l, f m ≤ B) : maxSimOf f l ≤ B := by
  match l with
  | [] => exact hB
  | j :: js =>
    show (js.map f).foldl max (f j) ≤ B
    refine foldl_max_le _ _ (h j (List.mem_cons_self _ _)) ?_
    intro y hy
    obtain ⟨m, hmem, rfl⟩ := List.mem_map.mp hy
    exact h m (List.mem_cons_of_mem _ hmem)

theorem docFreq_le (docs : List String) (t : String) :
    docFreq docs t ≤ docs.length :=
  List.length_filter_le _ _

theorem idf_pos (docs : List String) (t : String) : 0 < idf docs t := by
  unfold idf
  have hdf : (0:ℝ) < 1 + docFreq docs t := by positivity
  have hratio : (1:ℝ) ≤ (1 + docs.length : ℝ) / (1 + docFreq docs t) := by
    rw [le_div_iff₀ hdf]
    have := docFreq_le docs t
    have hcast : (docFreq docs t : ℝ) ≤ (docs.length : ℝ) := by exact_mod_cast this
    linarith
  have := Real.log_nonneg hratio
  linarith

theorem tfidfWeight_nonneg (docs : List String) (d t : String) :
    0 ≤ tfidfWeight docs d t := by
  unfold tfidfWeight
  have h1 : (0:ℝ) ≤ (tf d t : ℝ) := by positivity
  exact mul_nonneg h1 (le_of_lt (idf_pos docs t))

theorem normSq_nonneg (docs : List String) (maxF : ℕ) (d : String) :
    0 ≤ normSq docs maxF d := by
  unfold normSq
  exact Finset.sum_nonneg fun t _ => sq_nonneg _

theorem dotW_nonneg (docs : List String) (maxF : ℕ) (d1 d2 : String) :
    0 ≤ dotW docs maxF d1 d2 := by
  unfold dotW
  exact Finset.sum_nonneg fun t _ =>
    mul_nonneg (tfidfWeight_nonneg docs d1 t) (tfidfWeight_nonneg docs d2 t)

theorem dotW_self (docs : List String) (maxF : ℕ) (d : String) :
    dotW docs maxF d d = normSq docs maxF d := by
  unfold dotW normSq
  exact Finset.sum_congr rfl fun t _ => (sq (tfidfWeight docs d t)).symm ▸ (pow_two _).symm

theorem normSq_pos (docs : List String) (maxF : ℕ) (d : String)
    (hfeat : ∃ t ∈ vocabulary docs maxF, 0 < tf d t) :
    0 < normSq docs maxF d := by
  obtain ⟨t, htv, htf⟩ := hfeat
  unfold normSq
  apply Finset.sum_pos' (fun s _ => sq_nonneg _)
  refine ⟨t, List.mem_toFinset.mpr htv, ?_⟩
  have hw : 0 < tfidfWeight docs d t := by
    unfold tfidfWeight
    have h1 : (0:ℝ) < (tf d t : ℝ) := by exact_mod_cast htf
    exact mul_pos h1 (idf_pos docs t)
  positivity

theorem cosSim_self (docs : List String) (maxF : ℕ) (d : String)
    (h : 0 < normSq docs maxF d) : cosSim docs maxF d d = 1 := by
  unfold cosSim
  rw [dotW_self, Real.mul_self_sqrt (le_of_lt h)]
  exact div_self (ne_of_gt h)

theorem cosSim_le_one (docs : List String) (maxF : ℕ) (d1 d2 : String) :
    cosSim docs maxF d1 d2 ≤ 1 := by
  unfold cosSim
  set D := dotW docs maxF d1 d2 with hD
  set S1 := normSq docs maxF d1 with hS1
  set S2 := normSq docs maxF d2 with hS2
  have hDnn : 0 ≤ D := dotW_nonneg docs maxF d1 d2
  have hS1nn : 0 ≤ S1 := normSq_nonneg docs maxF d1
  have hS2nn : 0 ≤ S2 := normSq_nonneg docs maxF d2
  have hcs : D ^ 2 ≤ S1 * S2 := by
    rw [hD, hS1, hS2]
    unfold dotW normSq
    exact Finset.sum_mul_sq_le_sq_mul_sq _ _ _
  set B := Real.sqrt S1 * Real.sqrt S2 with hB
  have hBnn : 0 ≤ B := mul_nonneg (Real.sqrt_nonneg _) (Real.sqrt_nonneg _)
  rcases eq_or_lt_of_le hBnn with hB0 | hBpos
  · rw [← hB0, div_zero]
    norm_num
  · rw [div_le_one hBpos]
    have hB2 : B ^ 2 = S1 * S2 := by
      rw [hB, mul_pow, Real.sq_sqrt hS1nn, Real.sq_sqrt hS2nn]
    have : D ^ 2 ≤ B ^ 2 := by rw [hB2]; exact hcs
    nlinarith

theorem simIJ_le_one (texts : List String) (maxF i j : ℕ) :
    simIJ texts maxF i j ≤ 1 :=
  cosSim_le_one texts maxF _ _

theorem distIJ_nonneg (texts : List String) (maxF i j : ℕ) :
    0 ≤ distIJ texts maxF i j := by
  unfold distIJ
  have := simIJ_le_one texts maxF i j
  linarith

theorem neighborRel_total (texts : List String) (maxF i : ℕ) :
    ∀ j1 j2, neighborRel texts maxF i j1 j2 ∨ neighborRel texts maxF i j2 j1 := by
  intro j1 j2
  unfold neighborRel
  rcases lt_trichotomy (distIJ texts maxF i j1) (distIJ texts maxF i j2) with h | h | h
  · exact Or.inl (Or.inl h)
  · rcases le_total j1 j2 with hj | hj
    · exact Or.inl (Or.inr ⟨h, hj⟩)
    · exact Or.inr (Or.inr ⟨h.symm, hj⟩)
  · exact Or.inr (Or.inl h)

theorem neighborRel_trans (texts : List String) (maxF i : ℕ) :
    ∀ j1 j2 j3, neighborRel texts maxF i j1 j2 → neighborRel texts maxF i j2 j3 →
      neighborRel texts maxF i j1 j3 := by
  intro j1 j2 j3 h12 h23
  unfold neighborRel at *
  rcases h12 with h12 | ⟨he12, hle12⟩
  · rcases h23 with h23 | ⟨he23, -⟩
    · exact Or.inl (lt_trans h12 h23)
    · exact Or.inl (he23 ▸ h12)
  · rcases h23 with h23 | ⟨he23, hle23⟩
    · exact Or.inl (he12 ▸ h23)
    · exact Or.inr ⟨he12.trans he23, le_trans hle12 hle23⟩

theorem neighborOrder_perm (texts : List String) (maxF i : ℕ) :
    List.Perm (neighborOrder texts maxF i) (List.range texts.length) := by
  unfold neighborOrder
  letI : DecidableRel (neighborRel texts maxF i) := Classical.decRel _
  exact List.perm_insertionSort _ _

theorem neighborOrder_sorted (texts : List String) (maxF i : ℕ) :
    List.Sorted (neighborRel texts maxF i) (neighborOrder texts maxF i) := by
  unfold neighborOrder
  letI : DecidableRel (neighborRel texts maxF i) := Classical.decRel _
  haveI : IsTotal ℕ (neighborRel texts maxF i) := ⟨neighborRel_total texts maxF i⟩
  haveI : IsTrans ℕ (neighborRel texts maxF i) := ⟨neighborRel_trans texts maxF i⟩
  exact List.sorted_insertionSort _ _

theorem neighborOrder_nodup (texts : List String) (maxF i : ℕ) :
    (neighborOrder texts maxF i).Nodup :=
  (neighborOrder_perm texts maxF i).nodup_iff.mpr (List.nodup_range _)

theorem neighborOrder_length (texts : List String) (maxF i : ℕ) :
    (neighborOrder texts maxF i).length = texts.length := by
  rw [(neighborOrder_perm texts maxF i).length_eq, List.length_range]

/-- If some non-self row `j` is at cosine distance 0 from row `i`, then the
top-k neighbor set of `i` (k ≥ 2) contains a non-self row at distance 0. -/
theorem exists_zero_dist_neighbor (texts : List String) (maxF nn i j : ℕ)
    (hn : 2 ≤ texts.length) (hij : j ≠ i) (hj : j < texts.length)
    (hdj : distIJ texts maxF i j = 0) :
    ∃ m ∈ topkNeighbors texts maxF nn i, m ≠ i ∧ distIJ texts maxF i m = 0 := by
  set L := neighborOrder texts maxF i with hL
  set k := kOf nn texts.length with hk
  have hk2 : 2 ≤ k := le_max_left _ _
  have hkn : k ≤ texts.length := by
    rw [hk]
    unfold kOf
    exact max_le hn (min_le_right _ _)
  have hLlen : L.length = texts.length := neighborOrder_length texts maxF i
  have htklen : (L.take k).length = k := by
    rw [List.length_take, hLlen]
    omega
  by_cases hjin : j ∈ L.take k
  · exact ⟨j, hjin, hij, hdj⟩
  · have hjL : j ∈ L := (neighborOrder_perm texts maxF i).mem_iff.mpr
      (List.mem_range.mpr hj)
    have hjdrop : j ∈ L.drop k := by
      have hsplit : j ∈ L.take k ++ L.drop k := by
        rw [List.take_append_drop]
        exact hjL
      rcases List.mem_append.mp hsplit with h | h
      · exact absurd h hjin
      · exact h
    have hnd : (L.take k).Nodup := (neighborOrder_nodup texts maxF i).sublist
      (List.take_sublist _ _)
    have h0 : 0 < (L.take k).length := by omega
    have h1 : 1 < (L.take k).length := by omega
    set m0 := (L.take k).get ⟨0, h0⟩ with hm0
    set m1 := (L.take k).get ⟨1, h1⟩ with hm1
    have hne : m0 ≠ m1 := by
      intro hcon
      have := List.Nodup.get_inj_iff hnd (i := ⟨0, h0⟩) (j := ⟨1, h1⟩)
      rw [← hm0, ← hm1] at this
      have h01 := this.mp hcon
      simp at h01
    have hmem0 : m0 ∈ L.take k := List.get_mem _ _ h0
    have hmem1 : m1 ∈ L.take k := List.get_mem _ _ h1
    have key : ∀ m ∈ L.take k, distIJ texts maxF i m = 0 := by
      intro m hm
      have hrel := (neighborOrder_sorted texts maxF i).rel_of_mem_take_of_mem_drop hm hjdrop
      unfold neighborRel at hrel
      have hle : distIJ texts maxF i m ≤ distIJ texts maxF i j := by
        rcases hrel with h | ⟨h, -⟩
        · exact le_of_lt h
        · exact le_of_eq h
      have := distIJ_nonneg texts maxF i m
      rw [hdj] at hle
      linarith
    by_cases hm0i : m0 = i
    · refine ⟨m1, hmem1, ?_, key m1 hmem1⟩
      rw [← hm0i]
      exact fun h => hne h.symm
    · exact ⟨m0, hmem0, hm0i, key m0 hmem0⟩

/-- A row that shares its text with a distinct row, and whose text
contributes at least one vocabulary feature, gets similarity exactly 1. -/
theorem maxNarrativeSimilarity_eq_one (texts : List String) (maxF nn i j : ℕ)
    (hn : 2 ≤ texts.length) (hij : j ≠ i) (hj : j < texts.length)
    (heq : texts.getD i "" = texts.getD j "")
    (hfeat : ∃ t ∈ vocabulary texts maxF, 0 < tf (texts.getD i "") t) :
    maxNarrativeSimilarity texts maxF nn i = 1 := by
  have hS : 0 < normSq texts maxF (texts.getD i "") := normSq_pos _ _ _ hfeat
  have hsimij : simIJ texts maxF i j = 1 := by
    unfold simIJ
    rw [← heq]
    exact cosSim_self _ _ _ hS
  have hdij : distIJ texts maxF i j = 0 := by
    unfold distIJ
    rw [hsimij]
    ring
  obtain ⟨m, hmtop, hmne, hmdist⟩ :=
    exists_zero_dist_neighbor texts maxF nn i j hn hij hj hdij
  have hsimm : simIJ texts maxF i m = 1 := by
    unfold distIJ at hmdist
    linarith
  have hmem : m ∈ (topkNeighbors texts maxF nn i).filter fun x => x ≠ i := by
    rw [List.mem_filter]
    exact ⟨hmtop, by simpa using hmne⟩
  unfold maxNarrativeSimilarity
  apply le_antisymm
  · exact maxSimOf_le _ (by norm_num) fun x _ => simIJ_le_one texts maxF i x
  · calc (1:ℝ) = simIJ texts maxF i m := hsimm.symm
      _ ≤ _ := le_maxSimOf _ hmem

/-- C4 (amended): in a corpus of at least two rows, if two distinct rows
have identical text in the scored column and that text yields at least one
fitted-vocabulary feature (at least one non-stop-word token of length ≥ 2
surviving `max_features` selection), then `apply_narrative_repetition`
with the default threshold 0.82 reports `max_narrative_similarity = 1.0`
for both rows and sets their repetition flags (1 ≥ 0.82), for every
neighbor-count parameter (the effective k is always ≥ 2). -/
theorem C4_identical_rows_flag_true (texts : List String) (maxF nn i j : ℕ)
    (hij : i ≠ j) (hi : i < texts.length) (hj : j < texts.length)
    (heq : texts.getD i "" = texts.getD j "")
    (hfeat : ∃ t ∈ vocabulary texts maxF, 0 < tf (texts.getD i "") t) :
    ∃ L, applyNarrativeRepetition texts (41/50) maxF nn = Except.ok L ∧
      L[i]? = some ((1 : ℝ), True) ∧ L[j]? = some ((1 : ℝ), True) := by
  have hn : 2 ≤ texts.length := by omega
  have hv : vocabulary texts maxF ≠ [] := by
    obtain ⟨t, ht, -⟩ := hfeat
    intro h0
    rw [h0] at ht
    cases ht
  have hmi : maxNarrativeSimilarity texts maxF nn i = 1 :=
    maxNarrativeSimilarity_eq_one texts maxF nn i j hn (Ne.symm hij) hj heq hfeat
  have hfeatj : ∃ t ∈ vocabulary texts maxF, 0 < tf (texts.getD j "") t := by
    rw [← heq]
    exact hfeat
  have hmj : maxNarrativeSimilarity texts maxF nn j = 1 :=
    maxNarrativeSimilarity_eq_one texts maxF nn j i hn hij hi heq.symm hfeatj
  have htrue : ((1:ℝ) ≥ (41/50 : ℝ)) = True := eq_true (by norm_num)
  refine ⟨(List.range texts.length).map fun m =>
      (maxNarrativeSimilarity texts maxF nn m,
        maxNarrativeSimilarity texts maxF nn m ≥ (41/50 : ℝ)), ?_, ?_, ?_⟩
  · unfold applyNarrativeRepetition
    rw [if_neg (by omega), if_neg hv]
  · rw [List.getElem?_map, List.getElem?_range hi, Option.map_some']
    rw [hmi, htrue]
  · rw [List.getElem?_map, List.getElem?_range hj, Option.map_some']
    rw [hmj, htrue]

/-- C4 witness: two identical two-token rows are both flagged with
similarity exactly 1. -/
theorem C4_identical_rows_flag_true_witness :
    ∃ L, applyNarrativeRepetition ["ab cd", "ab cd"] (41/50) 25000 6 = Except.ok L ∧
      L[0]? = some ((1 : ℝ), True) ∧ L[1]? = some ((1 : ℝ), True) :=
  C4_identical_rows_flag_true ["ab cd", "ab cd"] 25000 6 0 1
    (by decide) (by decide) (by decide) rfl ⟨"ab", by decide, by decide⟩

/-- C5: for a corpus that vectorizes (≥ 2 rows, nonempty vocabulary),
every row's reported value is the maximum similarity over its top-k
neighbor list with the row's own index removed (`maxSimOf` of the
filtered list, which is 0 for an empty list), and the row's own index
never belongs to the filtered neighbor list. -/
theorem C5_self_excluded_from_neighbors (texts : List String) (threshold : ℝ)
    (maxF nn : ℕ) (hn : ¬ texts.length < 2) (hv : vocabulary texts maxF ≠ []) :
    (applyNarrativeRepetition texts threshold maxF nn =
      Except.ok ((List.range texts.length).map fun i =>
        (maxSimOf (simIJ texts maxF i) ((topkNeighbors texts maxF nn i).filter fun x => x ≠ i),
         maxSimOf (simIJ texts maxF i)
           ((topkNeighbors texts maxF nn i).filter fun x => x ≠ i) ≥ threshold))) ∧
    ∀ i : ℕ, i ∉ (topkNeighbors texts maxF nn i).filter fun x => x ≠ i := by
  constructor
  · unfold applyNarrativeRepetition
    rw [if_neg hn, if_neg hv]
    rfl
  · intro i hmem
    have := List.mem_filter.mp hmem
    simp at this

/-- C5 witness: the theorem applied at a concrete two-row corpus. -/
theorem C5_self_excluded_from_neighbors_witness :
    (applyNarrativeRepetition ["ab cd", "ab ef"] (41/50) 25000 6 =
      Except.ok ((List.range (["ab cd", "ab ef"] : List String).length).map fun i =>
        (maxSimOf (simIJ ["ab cd", "ab ef"] 25000 i)
           ((topkNeighbors ["ab cd", "ab ef"] 25000 6 i).filter fun x => x ≠ i),
         maxSimOf (simIJ ["ab cd", "ab ef"] 25000 i)
           ((topkNeighbors ["ab cd", "ab ef"] 25000 6 i).filter fun x => x ≠ i) ≥ 41/50))) ∧
    ∀ i : ℕ, i ∉ (topkNeighbors ["ab cd", "ab ef"] 25000 6 i).filter fun x => x ≠ i :=
  C5_self_excluded_from_neighbors ["ab cd", "ab ef"] (41/50) 25000 6
    (by decide) (by decide)

/-- C6: a corpus of fewer than 2 rows short-circuits before any
vectorization: no exception (an `Except.ok` value even when the corpus
would give an empty vocabulary), `max_narrative_similarity = 0.0` and
`narrative_repetition_flag = False` for every row. -/
theorem C6_short_corpus_degenerate (texts : List String) (threshold : ℝ)
    (maxF nn : ℕ) (h : texts.length < 2) :
    applyNarrativeRepetition texts threshold maxF nn =
      Except.ok (texts.map fun _ => ((0 : ℝ), False)) := by
  unfold applyNarrativeRepetition
  rw [if_pos h]

/-- C6 witness: a one-row corpus (whose sole text is even stop-word-free
but never vectorized) yields similarity 0 and flag False. -/
theorem C6_short_corpus_degenerate_witness :
    applyNarrativeRepetition ["hello world"] (41/50) 25000 6 =
      Except.ok [((0 : ℝ), False)] := by
  have h := C6_short_corpus_degenerate ["hello world"] (41/50) 25000 6 (by decide)
  simpa using h

theorem maxSimOf_zero (f : ℕ → ℝ) {l : List ℕ} (h : ∀ m ∈ l, f m = 0) :
    maxSimOf f l = 0 := by
  match l with
  | [] => rfl
  | j :: js =>
    apply le_antisymm
    · exact maxSimOf_le f le_rfl fun m hm => le_of_eq (h m hm)
    · have := le_maxSimOf f (List.mem_cons_self j js)
      rw [h j (List.mem_cons_self j js)] at this
      exact this

/-- C4 counterexample: the corpus ["", "", "ab cd"] has ≥ 2 rows, rows 0
and 1 have identical (empty) cleaned text and the neighbor count is 6 ≥ 2,
yet both rows report `max_narrative_similarity = 0.0` and flag `False`,
not 1.0/true: an all-stop-word or empty text vectorizes to the zero
vector, whose cosine similarity to anything (itself included) is 0. -/
theorem C4_counterexample :
    (2 : ℕ) ≤ (["", "", "ab cd"] : List String).length ∧
    (["", "", "ab cd"] : List String).getD 0 "" =
      (["", "", "ab cd"] : List String).getD 1 "" ∧
    (0 : ℕ) ≠ 1 ∧
    applyNarrativeRepetition ["", "", "ab cd"] (41/50) 25000 6 =
      Except.ok [((0 : ℝ), False), ((0 : ℝ), False), ((0 : ℝ), False)] := by
  refine ⟨by decide, rfl, by decide, ?_⟩
  have hg0 : (["", "", "ab cd"] : List String).getD 0 "" = "" := rfl
  have hg1 : (["", "", "ab cd"] : List String).getD 1 "" = "" := rfl
  have hg2 : (["", "", "ab cd"] : List String).getD 2 "" = "ab cd" := rfl
  have hng : ngramsOf "" = [] := by decide
  have htf0 : ∀ t : String, tf "" t = 0 := by
    intro t
    unfold tf
    rw [hng]
    rfl
  have hw0 : ∀ t, tfidfWeight ["", "", "ab cd"] "" t = 0 := by
    intro t
    unfold tfidfWeight
    rw [htf0]
    simp
  have hdotl : ∀ d2, dotW ["", "", "ab cd"] 25000 "" d2 = 0 := by
    intro d2
    unfold dotW
    apply Finset.sum_eq_zero
    intro t _
    rw [hw0]
    ring
  have hdotr : ∀ d1, dotW ["", "", "ab cd"] 25000 d1 "" = 0 := by
    intro d1
    unfold dotW
    apply Finset.sum_eq_zero
    intro t _
    rw [hw0]
    ring
  have hsiml : ∀ d2, cosSim ["", "", "ab cd"] 25000 "" d2 = 0 := by
    intro d2
    unfold cosSim
    rw [hdotl]
    exact zero_div _
  have hsimr : ∀ d1, cosSim ["", "", "ab cd"] 25000 d1 "" = 0 := by
    intro d1
    unfold cosSim
    rw [hdotr]
    exact zero_div _
  have hs0 : ∀ m, simIJ ["", "", "ab cd"] 25000 0 m = 0 := by
    intro m
    unfold simIJ
    rw [hg0]
    exact hsiml _
  have hs1 : ∀ m, simIJ ["", "", "ab cd"] 25000 1 m = 0 := by
    intro m
    unfold simIJ
    rw [hg1]
    exact hsiml _
  have hs20 : simIJ ["", "", "ab cd"] 25000 2 0 = 0 := by
    unfold simIJ
    rw [hg0]
    exact hsimr _
  have hs21 : simIJ ["", "", "ab cd"] 25000 2 1 = 0 := by
    unfold simIJ
    rw [hg1]
    exact hsimr _
  have hm0 : maxNarrativeSimilarity ["", "", "ab cd"] 25000 6 0 = 0 := by
    unfold maxNarrativeSimilarity
    exact maxSimOf_zero _ fun m _ => hs0 m
  have hm1 : maxNarrativeSimilarity ["", "", "ab cd"] 25000 6 1 = 0 := by
    unfold maxNarrativeSimilarity
    exact maxSimOf_zero _ fun m _ => hs1 m
  have hm2 : maxNarrativeSimilarity ["", "", "ab cd"] 25000 6 2 = 0 := by
    unfold maxNarrativeSimilarity
    apply maxSimOf_zero
    intro m hm
    have h2 := List.mem_filter.mp hm
    have hmne : m ≠ 2 := by simpa using h2.2
    have hmL : m ∈ neighborOrder ["", "", "ab cd"] 25000 2 :=
      (List.take_sublist _ _).subset h2.1
    have hmrange : m ∈ List.range (["", "", "ab cd"] : List String).length :=
      (neighborOrder_perm _ 25000 2).mem_iff.mp hmL
    have hmlt : m < 3 := List.mem_range.mp hmrange
    match m, hmlt with
    | 0, _ => exact hs20
    | 1, _ => exact hs21
    | 2, _ => exact absurd rfl hmne
  unfold applyNarrativeRepetition
  rw [if_neg (by decide), if_neg (by decide)]
  have hr3 : List.range (["", "", "ab cd"] : List String).length = [0, 1, 2] := by decide
  rw [hr3]
  simp only [List.map_cons, List.map_nil]
  rw [hm0, hm1, hm2]
  have hfalse : ((0:ℝ) ≥ 41/50) = False := eq_false (by norm_num)
  rw [hfalse]

/-! ## Coordinated-behaviour (bot) detector (bot_detection.py)

Datetimes are embedded as integer epoch seconds; each `datetime.now(UTC)`
call site is a parameter (`baseNow` in `_news_to_posts`, `baseTime` in the
synthetic generator, `nowAcc` for the account-age checks — idealized as
one instant — and `genAt` for the `generatedAt` stamp).  The `random`
module is a parameter: a state type with `seed` and an inclusive-bounds
`randint`, threaded exactly in the source's call order; `random.seed(42)`
makes the generator start from the same state on every run.  `_build_id`
(a sha1 prefix) and the news timestamp parser (`datetime.fromisoformat`
with Z-handling) are parameters too: fixed library functions identical
across runs.  The `explanation` strings (printf-formatted floats) are not
modelled; no claim refers to them. -/

/-- bot_detection.py `COORDINATED_KEYWORDS`. -/
def COORDINATED_KEYWORDS : List String :=
  ["urgent", "breaking", "exposed", "leak", "panic", "rigged", "coverup", "threat"]

/-- bot_detection.py `NEGATIVE_WORDS`. -/
def NEGATIVE_WORDS : List String :=
  ["panic", "threat", "chaos", "crisis", "fear", "attack", "danger", "collapse",
   "rigged", "corrupt"]

/-- A post of the behaviour detector (`DetectionPost` dataclass); times in
epoch seconds. -/
structure DetectionPost where
  post_id : String
  account : String
  text : String
  posted_at : ℤ
  account_created_at : ℤ
  likes : ℤ
  shares : ℤ
  retweets : ℤ
  source : String
deriving Repr, DecidableEq

/-- Maximal runs of `[a-zA-Z']` characters (fuelled structural scan). -/
def alphaRunsAux : ℕ → List Char → List String
  | 0, _ => []
  | _, [] => []
  | fuel + 1, c :: rest =>
    if c.isAlpha || c = '\'' then
      (⟨(c :: rest).takeWhile fun x => x.isAlpha || x = '\''⟩ : String) ::
        alphaRunsAux fuel ((c :: rest).dropWhile fun x => x.isAlpha || x = '\'')
    else alphaRunsAux fuel rest

/-- bot_detection.py `_tokenize`: `re.findall(r"[a-zA-Z']+", text.lower())`. -/
def botTokenize (text : String) : List String :=
  alphaRunsAux (text.data.map Char.toLower).length (text.data.map Char.toLower)

/-- bot_detection.py `_sentiment_score`: negative-word hits over token
count (0 for no tokens). -/
def sentimentScore (text : String) : ℚ :=
  let tokens := botTokenize text
  if tokens = [] then 0
  else ((tokens.filter (· ∈ NEGATIVE_WORDS)).length : ℚ) / tokens.length

/-- bot_detection.py `_jaccard_similarity` on token sets. -/
def jaccardSimilarity (a b : String) : ℚ :=
  let A := (botTokenize a).toFinset
  let B := (botTokenize b).toFinset
  if A = ∅ ∨ B = ∅ then 0
  else ((A ∩ B).card : ℚ) / (A ∪ B).card

/-- bot_detection.py `_normalize`: clamp into `[lower, upper]` (the
NaN/infinity guard returns `lower`; exact arithmetic never produces
those values). -/
noncomputable def pyNormalize (value lower upper : ℝ) : ℝ :=
  max lower (min upper value)

/-- bot_detection.py `_to_bucket`: floor the timestamp to its 10-minute
window. -/
def toBucket (ts : ℤ) : ℤ := Int.fdiv ts 600 * 600

/-- Does `needle` occur as a prefix of one of the first `fuel + 1`
suffixes of `hay`? -/
def isSubstrAux (needle : List Char) : ℕ → List Char → Bool
  | 0, hay => needle.isPrefixOf hay
  | fuel + 1, hay =>
    needle.isPrefixOf hay ||
      (match hay with
       | [] => false
       | _ :: rest => isSubstrAux needle fuel rest)

/-- Python substring test `keyword in post.text.lower()`. -/
def containsKw (text kw : String) : Bool :=
  isSubstrAux kw.data (text.toLower.data).length (text.toLower.data)

/-- Round a real to the nearest integer, ties to even (Python `round`). -/
noncomputable def rheR (x : ℝ) : ℤ :=
  if x - (⌊x⌋ : ℝ) < 1/2 then ⌊x⌋
  else if 1/2 < x - (⌊x⌋ : ℝ) then ⌊x⌋ + 1
  else if 2 ∣ ⌊x⌋ then ⌊x⌋ else ⌊x⌋ + 1

/-- Python `round(x, 2)` on a real. -/
noncomputable def round2R (x : ℝ) : ℝ := (rheR (x * 100) : ℝ) / 100

theorem rheR_nonneg {x : ℝ} (hx : 0 ≤ x) : 0 ≤ rheR x := by
  unfold rheR
  have h0 : (0 : ℤ) ≤ ⌊x⌋ := by positivity
  split
  · exact h0
  · split
    · omega
    · split <;> omega

theorem rheR_le {x : ℝ} {B : ℤ} (hx : x ≤ (B : ℝ)) : rheR x ≤ B := by
  unfold rheR
  have hfB : ⌊x⌋ ≤ B := by
    have := Int.floor_le_floor (α := ℝ) hx
    simpa using this
  split
  · exact hfB
  · rename_i hhalf
    have hlt : ⌊x⌋ < B := by
      by_contra hge
      have hfeq : ⌊x⌋ = B := le_antisymm hfB (by omega)
      have hfl : (B : ℝ) ≤ x := by
        have := Int.floor_le x
        rw [hfeq] at this; exact_mod_cast this
      have hxB : x = (B : ℝ) := le_antisymm hx hfl
      rw [hxB] at hhalf
      simp [Int.floor_intCast] at hhalf
    split
    · omega
    · split <;> omega

theorem round2R_nonneg {x : ℝ} (hx : 0 ≤ x) : 0 ≤ round2R x := by
  unfold round2R
  have : (0 : ℤ) ≤ rheR (x * 100) := rheR_nonneg (by positivity)
  positivity

theorem round2R_le_100 {x : ℝ} (hx : x ≤ 100) : round2R x ≤ 100 := by
  unfold round2R
  have h : rheR (x * 100) ≤ (10000 : ℤ) := rheR_le (by push_cast; linarith)
  rw [div_le_iff₀ (by norm_num)]
  calc ((rheR (x * 100) : ℝ)) ≤ (10000 : ℝ) := by exact_mod_cast h
    _ = 100 * 100 := by norm_num

theorem pyNormalize_bounds (value : ℝ) :
    0 ≤ pyNormalize value 0 1 ∧ pyNormalize value 0 1 ≤ 1 := by
  unfold pyNormalize
  constructor
  · exact le_max_left _ _
  · exact max_le (by norm_num) (min_le_left _ _)

/-- An external article as consumed by `_news_to_posts` (`None` cells for
missing keys). -/
structure NewsRecord where
  title : Option String
  description : Option String
  content : Option String
  source : Option String
  publishedAt : Option String
deriving Repr, DecidableEq

/-- bot_detection.py `_news_to_posts`, one record at `index`:
`parseTs` stands for the `datetime.fromisoformat` parsing (with the
Z-suffix and timezone handling); an unparsable timestamp falls back to
`baseNow - index·3 minutes`. -/
def newsPostOf (parseTs : String → Option ℤ) (buildId : String → String)
    (baseNow : ℤ) (index : ℕ) (a : NewsRecord) : DetectionPost :=
  let published :=
    match parseTs ((a.publishedAt.getD "").trim) with
    | some t => t
    | none => baseNow - (index : ℤ) * 3 * 60
  let parts := [a.title.getD "", a.description.getD "", a.content.getD ""].filter
    fun s => s ≠ ""
  let text0 := (String.intercalate " " parts).trim
  let text := if text0 = "" then "No content" else text0
  let sourceName := if a.source.getD "" = "" then "news-source" else a.source.getD ""
  { post_id := buildId ("news:" ++ toString index ++ ":" ++ text.take 80)
    account := (sourceName.toLower.replace " " "_") ++ "_" ++ toString (index % 4)
    text := text
    posted_at := published
    account_created_at := published - (180 + (index : ℤ) % 45) * 86400
    likes := 40 + ((index : ℤ) * 7) % 200
    shares := 15 + ((index : ℤ) * 5) % 80
    retweets := 8 + ((index : ℤ) * 3) % 60
    source := "news" }

/-- bot_detection.py `_news_to_posts` over the record list. -/
def newsToPosts (parseTs : String → Option ℤ) (buildId : String → String)
    (baseNow : ℤ) (records : List NewsRecord) : List DetectionPost :=
  (List.range records.length).zip records |>.map fun p =>
    newsPostOf parseTs buildId baseNow p.1 p.2

/-- The synthetic template pool, parameterized by topic. -/
def templatePool (topic : String) : List String :=
  ["URGENT: " ++ topic ++ " leak just exposed by insiders. Share now before deletion.",
   "Breaking thread: hidden truth about " ++ topic ++
     " is being suppressed by mainstream media.",
   "Citizens alert! " ++ topic ++ " evidence confirms a coordinated coverup.",
   "Act now. " ++ topic ++ " crisis update reveals a serious threat to public safety."]

/-- The rotating synthetic account pool (one name deliberately repeated). -/
def botAccounts : List String :=
  ["news_update247", "truth_watch_01", "citizen_alert_now", "dailybuzzflash",
   "news_update247", "trend_signal_x"]

/-- One synthetic post: the `randint` calls are threaded through the
generator state in the source's order (seconds offset, account-age days,
account-age hours, then — unless `index % 7 == 0` — likes, shares,
retweets). -/
def synPost {σ : Type} (rnd : ℤ → ℤ → σ → ℤ × σ) (topic : String) (baseTime : ℤ)
    (buildId : String → String) (index : ℕ) (st : σ) : DetectionPost × σ :=
  let account := botAccounts.getD (index % botAccounts.length) ""
  let template := (templatePool topic).getD (index % (templatePool topic).length) ""
  let suffix := if index % 3 = 0 then " #breaking #urgent" else ""
  let text := (template ++ " " ++ suffix).trim
  let r1 := (rnd 4 18 st).1
  let st1 := (rnd 4 18 st).2
  let d := (rnd 0 4 st1).1
  let st2 := (rnd 0 4 st1).2
  let h := (rnd 0 18 st2).1
  let st3 := (rnd 0 18 st2).2
  let likes := if index % 7 = 0 then 950 else (rnd 120 420 st3).1
  let shares := if index % 7 = 0 then 510 else (rnd 80 260 (rnd 120 420 st3).2).1
  let retweets :=
    if index % 7 = 0 then 430 else (rnd 70 230 (rnd 80 260 (rnd 120 420 st3).2).2).1
  let st4 := if index % 7 = 0 then st3 else (rnd 70 230 (rnd 80 260 (rnd 120 420 st3).2).2).2
  (⟨buildId ("synthetic:" ++ toString index ++ ":" ++ account ++ ":" ++ text.take 50),
    account, text,
    baseTime - ((index / 12 : ℕ) * 25 * 60 + ((index % 12 : ℕ) : ℤ) * r1),
    baseTime - (d * 86400 + h * 3600),
    likes, shares, retweets, "synthetic-demo"⟩, st4)

/-- The synthetic generation loop over `remaining` indices starting at
`index` with generator state `st`. -/
def synLoop {σ : Type} (rnd : ℤ → ℤ → σ → ℤ × σ) (topic : String) (baseTime : ℤ)
    (buildId : String → String) : ℕ → ℕ → σ → List DetectionPost
  | 0, _, _ => []
  | remaining + 1, index, st =>
    (synPost rnd topic baseTime buildId index st).1 ::
      synLoop rnd topic baseTime buildId remaining (index + 1)
        (synPost rnd topic baseTime buildId index st).2

/-- Stable ascending sort by `posted_at` (Python `sorted` with a key). -/
def sortByTime (posts : List DetectionPost) : List DetectionPost :=
  List.insertionSort (fun p q => p.posted_at ≤ q.posted_at) posts

/-- bot_detection.py `generate_synthetic_coordinated_posts`: seed the
generator with 42, emit `size` synthetic posts, append up to 12 of the
seed posts when there are any, sort by time. -/
def generateSyntheticCoordinatedPosts {σ : Type} (seed : ℕ → σ)
    (rnd : ℤ → ℤ → σ → ℤ × σ) (seedPosts : List DetectionPost) (topic : String)
    (size : ℕ) (baseTime : ℤ) (buildId : String → String) : List DetectionPost :=
  let synthetic := synLoop rnd topic baseTime buildId size 0 (seed 42)
  sortByTime (if seedPosts = [] then synthetic else synthetic ++ seedPosts.take 12)

/-- Total engagement of a post. -/
def engagementOf (p : DetectionPost) : ℤ := p.likes + p.shares + p.retweets

/-- All ordered pairs `(l[i], l[j])` with `i < j`, in the double-loop
order of the source. -/
def pairsOf {α : Type} : List α → List (α × α)
  | [] => []
  | x :: xs => (xs.map fun y => (x, y)) ++ pairsOf xs

/-- The distinct account names in first-appearance order (dict insertion
order of `posts_by_account`). -/
def accountsInOrder (posts : List DetectionPost) : List String :=
  firstSeen (posts.map (·.account))

/-- The posts of one account, in list order (append order of the
grouping loop). -/
def postsOf (posts : List DetectionPost) (acc : String) : List DetectionPost :=
  posts.filter fun p => p.account = acc

/-- Corpus-wide engagement mean (`sum / max(len, 1)`). -/
def engagementMean (posts : List DetectionPost) : ℚ :=
  (((posts.map engagementOf).sum : ℤ) : ℚ) / (max posts.length 1 : ℕ)

/-- Corpus-wide engagement population variance. -/
def engagementVar (posts : List DetectionPost) : ℚ :=
  ((posts.map fun p => ((engagementOf p : ℚ) - engagementMean posts) ^ 2).sum) /
    (max posts.length 1 : ℕ)

/-- `math.sqrt(variance) if variance > 0 else 1.0`. -/
noncomputable def engagementStdR (posts : List DetectionPost) : ℝ :=
  if 0 < engagementVar posts then Real.sqrt (engagementVar posts) else 1

/-- `max(1.0, (last - first).total_seconds() / 60.0)` over the account's
time-sorted posts. -/
def spanMinutes (sorted : List DetectionPost) : ℚ :=
  max 1 ((((sorted.getLast?.elim 0 (·.posted_at)) -
    (sorted.head?.elim 0 (·.posted_at)) : ℤ) : ℚ) / 60)

/-- `_normalize(((count / span) * 30) / 6)`. -/
noncomputable def frequencyScore (sorted : List DetectionPost) : ℝ :=
  pyNormalize ((((sorted.length : ℚ) / spanMinutes sorted) * 30 / 6 : ℚ) : ℝ) 0 1

/-- Mean pairwise Jaccard similarity over the account's post pairs. -/
def avgSimilarity (sorted : List DetectionPost) : ℚ :=
  ((pairsOf sorted).map fun pq => jaccardSimilarity pq.1.text pq.2.text).sum /
    (max (pairsOf sorted).length 1 : ℕ)

/-- `_normalize(average_similarity)`. -/
noncomputable def textSimilarityScore (sorted : List DetectionPost) : ℝ :=
  pyNormalize ((avgSimilarity sorted : ℚ) : ℝ) 0 1

/-- `_normalize((mean of max(0, z)) / 3)` against the corpus engagement
mean and std. -/
noncomputable def engagementSpikeScore (allPosts sorted : List DetectionPost) : ℝ :=
  pyNormalize
    (((sorted.map fun p =>
        max 0 (((engagementOf p : ℝ) - ((engagementMean allPosts : ℚ) : ℝ)) /
          engagementStdR allPosts)).sum / (max sorted.length 1 : ℕ)) / 3) 0 1

/-- Fraction of the account's posts with negative-word ratio ≥ 0.08. -/
def negativeRatio (sorted : List DetectionPost) : ℚ :=
  (((sorted.filter fun p => sentimentScore p.text ≥ 2/25).length : ℕ) : ℚ) /
    (max 1 sorted.length : ℕ)

/-- `_normalize(negative_ratio)`. -/
noncomputable def sentimentClusterScore (sorted : List DetectionPost) : ℝ :=
  pyNormalize ((negativeRatio sorted : ℚ) : ℝ) 0 1

/-- `1.0 if account_name_counter[account] > 4 else 0.0`. -/
noncomputable def dupSignal (allPosts : List DetectionPost) (acc : String) : ℝ :=
  if 4 < (postsOf allPosts acc).length then 1 else 0

/-- The newest account age in days among the account's posts. -/
def minAgeDays (nowAcc : ℤ) (sorted : List DetectionPost) : ℚ :=
  match sorted with
  | [] => 0
  | p :: ps =>
    (ps.map fun q => (((nowAcc - q.account_created_at : ℤ) : ℚ) / 86400)).foldl min
      (((nowAcc - p.account_created_at : ℤ) : ℚ) / 86400)

/-- `1.0 if newest_age_days <= 7 else 0.0`. -/
noncomputable def newSignal (nowAcc : ℤ) (sorted : List DetectionPost) : ℝ :=
  if minAgeDays nowAcc sorted ≤ 7 then 1 else 0

/-- Total coordinated-keyword hits over the account's posts. -/
def kwHits (sorted : List DetectionPost) : ℕ :=
  (sorted.map fun p =>
    (COORDINATED_KEYWORDS.filter fun kw => containsKw p.text kw).length).sum

/-- `_normalize(keyword_hits / max(3, post_count))`. -/
noncomputable def keywordBurstScore (sorted : List DetectionPost) : ℝ :=
  pyNormalize (((kwHits sorted : ℚ) / (max 3 sorted.length : ℕ) : ℚ) : ℝ) 0 1

/-- The weighted signal fusion (duplicate-username and new-account signals
carry no weight in the source). -/
noncomputable def scoreNormalized (allPosts sorted : List DetectionPost) : ℝ :=
  0.32 * frequencyScore sorted + 0.28 * textSimilarityScore sorted +
    0.22 * engagementSpikeScore allPosts sorted + 0.18 * sentimentClusterScore sorted

/-- The classification thresholds (≥ 70 high, ≥ 40 medium). -/
noncomputable def classificationOf (bp : ℝ) : String :=
  if bp ≥ 70 then "High Bot Probability"
  else if bp ≥ 40 then "Medium Bot Suspicion"
  else "Low Bot Risk"

/-- One account's entry of the `accounts` output (the printf-formatted
`explanation` string is not modelled). -/
structure AccountResult where
  account : String
  postCount : ℕ
  botProbability : ℝ
  classification : String
  frequency : ℝ
  textSimilarity : ℝ
  engagementSpike : ℝ
  sentimentCluster : ℝ
  duplicateUsernames : ℝ
  newAccount : ℝ
  keywordBurst : ℝ

/-- The account-level computation of `run_bot_detection`'s per-account
loop body. -/
noncomputable def mkAccountResult (allPosts : List DetectionPost) (nowAcc : ℤ)
    (acc : String) : AccountResult :=
  let sorted := sortByTime (postsOf allPosts acc)
  let bp := round2R (pyNormalize (scoreNormalized allPosts sorted) 0 1 * 100)
  { account := acc
    postCount := sorted.length
    botProbability := bp
    classification := classificationOf bp
    frequency := round2R (frequencyScore sorted * 100)
    textSimilarity := round2R (textSimilarityScore sorted * 100)
    engagementSpike := round2R (engagementSpikeScore allPosts sorted * 100)
    sentimentCluster := round2R (sentimentClusterScore sorted * 100)
    duplicateUsernames := round2R (dupSignal allPosts acc * 100)
    newAccount := round2R (newSignal nowAcc sorted * 100)
    keywordBurst := round2R (keywordBurstScore sorted * 100) }

/-- One entry of the `suspiciousPosts` output. -/
structure SuspiciousPost where
  postId : String
  account : String
  text : String
  source : String
  postedAt : ℤ
  likes : ℤ
  shares : ℤ
  retweets : ℤ
  badges : List String

/-- The suspicious-post test of the per-account loop. -/
noncomputable def isSuspicious (allPosts : List DetectionPost) (cls : String)
    (p : DetectionPost) : Prop :=
  cls ≠ "Low Bot Risk" ∨ sentimentScore p.text ≥ 3/25 ∨
    2 ≤ (COORDINATED_KEYWORDS.filter fun kw => containsKw p.text kw).length ∨
    (engagementOf p : ℝ) > ((engagementMean allPosts : ℚ) : ℝ) + engagementStdR allPosts

/-- The suspicious posts contributed by one account, in the loop's order. -/
noncomputable def suspiciousOf (allPosts : List DetectionPost) (nowAcc : ℤ)
    (acc : String) : List SuspiciousPost :=
  letI : ∀ p : Prop, Decidable p := fun p => Classical.propDecidable p
  let sorted := sortByTime (postsOf allPosts acc)
  let cls := (mkAccountResult allPosts nowAcc acc).classification
  (sorted.filter fun p => decide (isSuspicious allPosts cls p)).map fun p =>
    { postId := p.post_id
      account := p.account
      text := p.text
      source := p.source
      postedAt := p.posted_at
      likes := p.likes
      shares := p.shares
      retweets := p.retweets
      badges := [cls,
        if 2 ≤ (COORDINATED_KEYWORDS.filter fun kw => containsKw p.text kw).length
          then "Keyword Burst" else "Pattern Match",
        if sentimentScore p.text ≥ 3/25 then "Negative Cluster" else "Engagement Spike"] }

/-- The distinct 10-minute buckets in first-appearance order (Counter
insertion order). -/
def bucketsInOrder (posts : List DetectionPost) : List ℤ :=
  firstSeen (posts.map fun p => toBucket p.posted_at)

/-- Number of posts in a bucket. -/
def bucketCount (posts : List DetectionPost) (b : ℤ) : ℕ :=
  (posts.filter fun p => toBucket p.posted_at = b).length

/-- Posts in a bucket whose lowercased text contains the keyword. -/
def bucketIntensity (posts : List DetectionPost) (b : ℤ) (kw : String) : ℕ :=
  (posts.filter fun p => toBucket p.posted_at = b && containsKw p.text kw).length

/-- `timelineBursts`: buckets sorted ascending, a bucket bursting when its
count reaches `max(4, int(len(posts) * 0.1))`. -/
def timelineOf (posts : List DetectionPost) : List (ℤ × ℕ × Bool) :=
  (List.insertionSort (fun b1 b2 : ℤ => b1 ≤ b2) (bucketsInOrder posts)).map fun b =>
    (b, bucketCount posts b, decide (max 4 (posts.length / 10) ≤ bucketCount posts b))

/-- The 6 busiest buckets (stable descending count order). -/
def topBuckets (posts : List DetectionPost) : List ℤ :=
  (List.insertionSort (fun b1 b2 => bucketCount posts b2 ≤ bucketCount posts b1)
    (bucketsInOrder posts)).take 6

/-- `keywordHeatmap`: every coordinated keyword crossed with the busiest
buckets. -/
def keywordHeatmapOf (posts : List DetectionPost) : List (String × ℤ × ℕ) :=
  (COORDINATED_KEYWORDS.map fun kw =>
    (topBuckets posts).map fun b => (kw, b, bucketIntensity posts b kw)).flatten

/-- The fixed `signalDefinitions` dictionary. -/
def signalDefinitions : List (String × String) :=
  [("frequency", "High posting volume in short windows."),
   ("text_similarity", "Repeated or highly similar content across posts."),
   ("engagement_spike", "Unusual jump in likes, shares, or retweets."),
   ("sentiment_cluster", "Cluster of strongly negative sentiment posts."),
   ("duplicate_or_new_accounts", "Repeated usernames and very recent account creation."),
   ("keyword_burst", "Coordinated bursts around the same disinformation keywords.")]

/-- The result of `run_bot_detection`. -/
structure BotDetectionResult where
  topic : String
  generatedAt : ℤ
  datasetSize : ℕ
  botProbabilityGauge : ℝ
  riskLow : ℕ
  riskMedium : ℕ
  riskHigh : ℕ
  timelineBursts : List (ℤ × ℕ × Bool)
  keywordHeatmap : List (String × ℤ × ℕ)
  suspiciousPosts : List SuspiciousPost
  accounts : List AccountResult
  defs : List (String × String)

/-- bot_detection.py `run_bot_detection`, with every `datetime.now` call
site, the timestamp parser and the id hash as parameters.  The degenerate
no-posts branch mirrors the source's zero-filled structure (whose dict has
no dataset size; 0 here). -/
noncomputable def runBotDetection {σ : Type} (seed : ℕ → σ)
    (rnd : ℤ → ℤ → σ → ℤ × σ) (parseTs : String → Option ℤ)
    (buildId : String → String) (baseNow baseTime nowAcc genAt : ℤ)
    (news : Option (List NewsRecord)) (topic : String) : BotDetectionResult :=
  letI : ∀ p : Prop, Decidable p := fun p => Classical.propDecidable p
  let newsPosts := newsToPosts parseTs buildId baseNow (news.getD [])
  let posts := generateSyntheticCoordinatedPosts seed rnd newsPosts topic 36 baseTime buildId
  if posts = [] then
    { topic := topic, generatedAt := genAt, datasetSize := 0, botProbabilityGauge := 0
      riskLow := 0, riskMedium := 0, riskHigh := 0, timelineBursts := []
      keywordHeatmap := [], suspiciousPosts := [], accounts := [], defs := signalDefinitions }
  else
    let accounts0 := (accountsInOrder posts).map (mkAccountResult posts nowAcc)
    let accounts := List.insertionSort
      (fun a b : AccountResult => b.botProbability ≤ a.botProbability) accounts0
    let suspicious0 := ((accountsInOrder posts).map (suspiciousOf posts nowAcc)).flatten
    let suspicious := (List.insertionSort
      (fun a b : SuspiciousPost => b.postedAt ≤ a.postedAt) suspicious0).take 18
    { topic := topic
      generatedAt := genAt
      datasetSize := posts.length
      botProbabilityGauge := round2R
        (((accounts.take 6).map (·.botProbability)).sum /
          (max 1 (min 6 accounts.length) : ℕ))
      riskLow := (accounts.filter fun a => a.classification = "Low Bot Risk").length
      riskMedium := (accounts.filter fun a => a.classification = "Medium Bot Suspicion").length
      riskHigh := (accounts.filter fun a => a.classification = "High Bot Probability").length
      timelineBursts := timelineOf posts
      keywordHeatmap := keywordHeatmapOf posts
      suspiciousPosts := suspicious
      accounts := accounts
      defs := signalDefinitions }

theorem round2R_sig {x : ℝ} (h0 : 0 ≤ x) (h1 : x ≤ 1) :
    0 ≤ round2R (x * 100) ∧ round2R (x * 100) ≤ 100 :=
  ⟨round2R_nonneg (by positivity), round2R_le_100 (by nlinarith)⟩

theorem dupSignal_bounds (allPosts : List DetectionPost) (acc : String) :
    0 ≤ dupSignal allPosts acc ∧ dupSignal allPosts acc ≤ 1 := by
  unfold dupSignal
  split <;> norm_num

theorem newSignal_bounds (nowAcc : ℤ) (sorted : List DetectionPost) :
    0 ≤ newSignal nowAcc sorted ∧ newSignal nowAcc sorted ≤ 1 := by
  unfold newSignal
  split <;> norm_num

/-- Every field of an account result is a rounded `[0,1]`-clamped signal
scaled to `[0,100]`. -/
theorem mkAccountResult_bounds (allPosts : List DetectionPost) (nowAcc : ℤ)
    (acc : String) :
    (0 ≤ (mkAccountResult allPosts nowAcc acc).frequency ∧
      (mkAccountResult allPosts nowAcc acc).frequency ≤ 100) ∧
    (0 ≤ (mkAccountResult allPosts nowAcc acc).textSimilarity ∧
      (mkAccountResult allPosts nowAcc acc).textSimilarity ≤ 100) ∧
    (0 ≤ (mkAccountResult allPosts nowAcc acc).engagementSpike ∧
      (mkAccountResult allPosts nowAcc acc).engagementSpike ≤ 100) ∧
    (0 ≤ (mkAccountResult allPosts nowAcc acc).sentimentCluster ∧
      (mkAccountResult allPosts nowAcc acc).sentimentCluster ≤ 100) ∧
    (0 ≤ (mkAccountResult allPosts nowAcc acc).duplicateUsernames ∧
      (mkAccountResult allPosts nowAcc acc).duplicateUsernames ≤ 100) ∧
    (0 ≤ (mkAccountResult allPosts nowAcc acc).newAccount ∧
      (mkAccountResult allPosts nowAcc acc).newAccount ≤ 100) ∧
    (0 ≤ (mkAccountResult allPosts nowAcc acc).keywordBurst ∧
      (mkAccountResult allPosts nowAcc acc).keywordBurst ≤ 100) ∧
    (0 ≤ (mkAccountResult allPosts nowAcc acc).botProbability ∧
      (mkAccountResult allPosts nowAcc acc).botProbability ≤ 100) := by
  unfold mkAccountResult
  simp only
  obtain ⟨hf0, hf1⟩ := pyNormalize_bounds
    ((((sortByTime (postsOf allPosts acc)).length : ℚ) /
      spanMinutes (sortByTime (postsOf allPosts acc))) * 30 / 6 : ℚ)
  refine ⟨round2R_sig ?_ ?_, round2R_sig ?_ ?_, round2R_sig ?_ ?_, round2R_sig ?_ ?_,
    round2R_sig ?_ ?_, round2R_sig ?_ ?_, round2R_sig ?_ ?_, round2R_sig ?_ ?_⟩
  · exact (pyNormalize_bounds _).1
  · exact (pyNormalize_bounds _).2
  · exact (pyNormalize_bounds _).1
  · exact (pyNormalize_bounds _).2
  · exact (pyNormalize_bounds _).1
  · exact (pyNormalize_bounds _).2
  · exact (pyNormalize_bounds _).1
  · exact (pyNormalize_bounds _).2
  · exact (dupSignal_bounds allPosts acc).1
  · exact (dupSignal_bounds allPosts acc).2
  · exact (newSignal_bounds nowAcc _).1
  · exact (newSignal_bounds nowAcc _).2
  · exact (pyNormalize_bounds _).1
  · exact (pyNormalize_bounds _).2
  · exact (pyNormalize_bounds _).1
  · exact (pyNormalize_bounds _).2

/-- C10: every account profile that `run_bot_detection` reports has its
seven signal values and its bot probability inside `[0, 100]` (the
`_normalize` clamp into `[0, 1]` scaled by 100 and rounded; in this exact
embedding no NaN or infinity can arise, the guard's lower-bound fallback
included). -/
theorem C10_account_signals_bounded {σ : Type} (seed : ℕ → σ)
    (rnd : ℤ → ℤ → σ → ℤ × σ) (parseTs : String → Option ℤ)
    (buildId : String → String) (baseNow baseTime nowAcc genAt : ℤ)
    (news : Option (List NewsRecord)) (topic : String) (i : ℕ) :
    (((runBotDetection seed rnd parseTs buildId baseNow baseTime nowAcc genAt
        news topic).accounts)[i]?).elim True fun a =>
      (0 ≤ a.frequency ∧ a.frequency ≤ 100) ∧
      (0 ≤ a.textSimilarity ∧ a.textSimilarity ≤ 100) ∧
      (0 ≤ a.engagementSpike ∧ a.engagementSpike ≤ 100) ∧
      (0 ≤ a.sentimentCluster ∧ a.sentimentCluster ≤ 100) ∧
      (0 ≤ a.duplicateUsernames ∧ a.duplicateUsernames ≤ 100) ∧
      (0 ≤ a.newAccount ∧ a.newAccount ≤ 100) ∧
      (0 ≤ a.keywordBurst ∧ a.keywordBurst ≤ 100) ∧
      (0 ≤ a.botProbability ∧ a.botProbability ≤ 100) := by
  simp only [runBotDetection]
  split
  · simp
  · simp only
    set posts := generateSyntheticCoordinatedPosts seed rnd
      (newsToPosts parseTs buildId baseNow (news.getD [])) topic 36 baseTime buildId with hposts
    cases ha : (List.insertionSort
        (fun a b : AccountResult => b.botProbability ≤ a.botProbability)
        ((accountsInOrder posts).map (mkAccountResult posts nowAcc)))[i]? with
    | none => simp [ha]
    | some a =>
      simp only [Option.elim_some]
      have hmem : a ∈ List.insertionSort
          (fun a b : AccountResult => b.botProbability ≤ a.botProbability)
          ((accountsInOrder posts).map (mkAccountResult posts nowAcc)) := by
        obtain ⟨hi, hget⟩ := List.getElem?_eq_some.mp ha
        exact hget ▸ List.getElem_mem hi
      rw [List.mem_insertionSort] at hmem
      obtain ⟨acc, -, rfl⟩ := List.mem_map.mp hmem
      have h := mkAccountResult_bounds posts nowAcc acc
      exact ⟨h.1, h.2.1, h.2.2.1, h.2.2.2.1, h.2.2.2.2.1, h.2.2.2.2.2.1,
        h.2.2.2.2.2.2.1, h.2.2.2.2.2.2.2⟩

theorem orderedInsert_map {α β : Type} (r : α → α → Prop) (s : β → β → Prop)
    [DecidableRel r] [DecidableRel s] (f : β → α)
    (h : ∀ a b, r (f a) (f b) ↔ s a b) (a : β) :
    ∀ l : List β, List.orderedInsert r (f a) (l.map f) = (List.orderedInsert s a l).map f := by
  intro l
  induction l with
  | nil => rfl
  | cons b t ih =>
    simp only [List.map_cons, List.orderedInsert]
    by_cases hs : s a b
    · rw [if_pos ((h a b).mpr hs), if_pos hs, List.map_cons, List.map_cons]
    · rw [if_neg (fun hc => hs ((h a b).mp hc)), if_neg hs, List.map_cons, ih]

theorem insertionSort_map {α β : Type} (r : α → α → Prop) (s : β → β → Prop)
    [DecidableRel r] [DecidableRel s] (f : β → α)
    (h : ∀ a b, r (f a) (f b) ↔ s a b) :
    ∀ l : List β, List.insertionSort r (l.map f) = (List.insertionSort s l).map f := by
  intro l
  induction l with
  | nil => rfl
  | cons b t ih =>
    simp only [List.map_cons, List.insertionSort, ih]
    exact orderedInsert_map r s f h b _

theorem pairsOf_map {α β : Type} (f : α → β) :
    ∀ l : List α, pairsOf (l.map f) = (pairsOf l).map fun pq => (f pq.1, f pq.2) := by
  intro l
  induction l with
  | nil => rfl
  | cons x xs ih =>
    simp only [List.map_cons, pairsOf, ih, List.map_append, List.map_map]
    congr 1

/-- Shift a post's two timestamps by `Δ` (the effect of calling the
generator at a different wall-clock instant). -/
def shiftPost (Δ : ℤ) (p : DetectionPost) : DetectionPost :=
  { p with posted_at := p.posted_at + Δ, account_created_at := p.account_created_at + Δ }

theorem synPost_snd_shift {σ : Type} (rnd : ℤ → ℤ → σ → ℤ × σ) (topic : String)
    (b Δ : ℤ) (buildId : String → String) (index : ℕ) (st : σ) :
    (synPost rnd topic (b + Δ) buildId index st).2 =
      (synPost rnd topic b buildId index st).2 := rfl

theorem synPost_fst_shift {σ : Type} (rnd : ℤ → ℤ → σ → ℤ × σ) (topic : String)
    (b Δ : ℤ) (buildId : String → String) (index : ℕ) (st : σ) :
    (synPost rnd topic (b + Δ) buildId index st).1 =
      shiftPost Δ (synPost rnd topic b buildId index st).1 := by
  simp only [synPost, shiftPost]
  refine DetectionPost.mk.injEq .. |>.mpr ?_
  refine ⟨rfl, rfl, rfl, by ring, by ring, rfl, rfl, rfl, rfl⟩

theorem synLoop_shift {σ : Type} (rnd : ℤ → ℤ → σ → ℤ × σ) (topic : String)
    (b Δ : ℤ) (buildId : String → String) :
    ∀ (remaining index : ℕ) (st : σ),
      synLoop rnd topic (b + Δ) buildId remaining index st =
        (synLoop rnd topic b buildId remaining index st).map (shiftPost Δ) := by
  intro remaining
  induction remaining with
  | zero => intro index st; rfl
  | succ rem ih =>
    intro index st
    simp only [synLoop, List.map_cons]
    rw [synPost_fst_shift, synPost_snd_shift, ih]

theorem sortByTime_map_shift (Δ : ℤ) (l : List DetectionPost) :
    sortByTime (l.map (shiftPost Δ)) = (sortByTime l).map (shiftPost Δ) := by
  unfold sortByTime
  exact insertionSort_map _ _ (shiftPost Δ) (by
    intro a b
    simp only [shiftPost]
    omega) l

theorem generate_shift {σ : Type} (seed : ℕ → σ) (rnd : ℤ → ℤ → σ → ℤ × σ)
    (topic : String) (size : ℕ) (b Δ : ℤ) (buildId : String → String) :
    generateSyntheticCoordinatedPosts seed rnd [] topic size (b + Δ) buildId =
      (generateSyntheticCoordinatedPosts seed rnd [] topic size b buildId).map
        (shiftPost Δ) := by
  simp only [generateSyntheticCoordinatedPosts]
  simp only [if_true]
  rw [synLoop_shift, sortByTime_map_shift]

theorem shiftPost_account (Δ : ℤ) (p : DetectionPost) :
    (shiftPost Δ p).account = p.account := rfl

theorem shiftPost_text (Δ : ℤ) (p : DetectionPost) :
    (shiftPost Δ p).text = p.text := rfl

theorem shiftPost_engagement (Δ : ℤ) (p : DetectionPost) :
    engagementOf (shiftPost Δ p) = engagementOf p := rfl

theorem accountsInOrder_shift (Δ : ℤ) (l : List DetectionPost) :
    accountsInOrder (l.map (shiftPost Δ)) = accountsInOrder l := by
  unfold accountsInOrder
  rw [List.map_map]
  rfl

theorem postsOf_shift (Δ : ℤ) (l : List DetectionPost) (acc : String) :
    postsOf (l.map (shiftPost Δ)) acc = (postsOf l acc).map (shiftPost Δ) := by
  unfold postsOf
  rw [List.filter_map]
  rfl

theorem engagementMean_shift (Δ : ℤ) (l : List DetectionPost) :
    engagementMean (l.map (shiftPost Δ)) = engagementMean l := by
  unfold engagementMean
  rw [List.map_map, List.length_map]
  rfl

theorem engagementVar_shift (Δ : ℤ) (l : List DetectionPost) :
    engagementVar (l.map (shiftPost Δ)) = engagementVar l := by
  unfold engagementVar
  rw [List.map_map, List.length_map, engagementMean_shift]
  rfl

theorem engagementStdR_shift (Δ : ℤ) (l : List DetectionPost) :
    engagementStdR (l.map (shiftPost Δ)) = engagementStdR l := by
  unfold engagementStdR
  rw [engagementVar_shift]

theorem spanMinutes_shift (Δ : ℤ) (l : List DetectionPost) :
    spanMinutes (l.map (shiftPost Δ)) = spanMinutes l := by
  unfold spanMinutes
  rw [List.getLast?_map, List.head?_map]
  cases hq : l.getLast? with
  | none =>
    have hnil : l = [] := List.getLast?_eq_none_iff.mp hq
    subst hnil
    rfl
  | some q =>
    cases hh : l.head? with
    | none =>
      have hnil : l = [] := List.head?_eq_none_iff.mp hh
      subst hnil
      cases hq
    | some p =>
      simp only [Option.map_some', Option.elim_some, shiftPost]
      congr 1
      push_cast
      ring

theorem avgSimilarity_shift (Δ : ℤ) (l : List DetectionPost) :
    avgSimilarity (l.map (shiftPost Δ)) = avgSimilarity l := by
  unfold avgSimilarity
  rw [pairsOf_map, List.map_map, List.length_map]
  rfl

theorem frequencyScore_shift (Δ : ℤ) (l : List DetectionPost) :
    frequencyScore (l.map (shiftPost Δ)) = frequencyScore l := by
  unfold frequencyScore
  rw [List.length_map, spanMinutes_shift]

theorem textSimilarityScore_shift (Δ : ℤ) (l : List DetectionPost) :
    textSimilarityScore (l.map (shiftPost Δ)) = textSimilarityScore l := by
  unfold textSimilarityScore
  rw [avgSimilarity_shift]

theorem engagementSpikeScore_shift (Δ : ℤ) (posts sorted : List DetectionPost) :
    engagementSpikeScore (posts.map (shiftPost Δ)) (sorted.map (shiftPost Δ)) =
      engagementSpikeScore posts sorted := by
  unfold engagementSpikeScore
  rw [engagementMean_shift, engagementStdR_shift, List.map_map, List.length_map]
  rfl

theorem negativeRatio_shift (Δ : ℤ) (l : List DetectionPost) :
    negativeRatio (l.map (shiftPost Δ)) = negativeRatio l := by
  unfold negativeRatio
  rw [List.filter_map, List.length_map, List.length_map]
  rfl

theorem sentimentClusterScore_shift (Δ : ℤ) (l : List DetectionPost) :
    sentimentClusterScore (l.map (shiftPost Δ)) = sentimentClusterScore l := by
  unfold sentimentClusterScore
  rw [negativeRatio_shift]

theorem kwHits_shift (Δ : ℤ) (l : List DetectionPost) :
    kwHits (l.map (shiftPost Δ)) = kwHits l := by
  unfold kwHits
  rw [List.map_map]
  rfl

theorem keywordBurstScore_shift (Δ : ℤ) (l : List DetectionPost) :
    keywordBurstScore (l.map (shiftPost Δ)) = keywordBurstScore l := by
  unfold keywordBurstScore
  rw [kwHits_shift, List.length_map]

theorem scoreNormalized_shift (Δ : ℤ) (posts sorted : List DetectionPost) :
    scoreNormalized (posts.map (shiftPost Δ)) (sorted.map (shiftPost Δ)) =
      scoreNormalized posts sorted := by
  unfold scoreNormalized
  rw [frequencyScore_shift, textSimilarityScore_shift, engagementSpikeScore_shift,
    sentimentClusterScore_shift]

/-- Shifting every timestamp by the same offset changes neither an
account's bot probability nor its classification (the account-age signal
may change, but it carries no weight in the probability). -/
theorem mkAccountResult_shift (Δ : ℤ) (posts : List DetectionPost)
    (nowAcc1 nowAcc2 : ℤ) (acc : String) :
    (mkAccountResult (posts.map (shiftPost Δ)) nowAcc2 acc).botProbability =
      (mkAccountResult posts nowAcc1 acc).botProbability ∧
    (mkAccountResult (posts.map (shiftPost Δ)) nowAcc2 acc).classification =
      (mkAccountResult posts nowAcc1 acc).classification := by
  have hsorted : sortByTime (postsOf (posts.map (shiftPost Δ)) acc) =
      (sortByTime (postsOf posts acc)).map (shiftPost Δ) := by
    rw [postsOf_shift, sortByTime_map_shift]
  have hbp : (mkAccountResult (posts.map (shiftPost Δ)) nowAcc2 acc).botProbability =
      (mkAccountResult posts nowAcc1 acc).botProbability := by
    simp only [mkAccountResult]
    rw [hsorted, scoreNormalized_shift]
  refine ⟨hbp, ?_⟩
  simp only [mkAccountResult] at hbp ⊢
  rw [hsorted, scoreNormalized_shift]

theorem mkAccountResult_account (allPosts : List DetectionPost) (nowAcc : ℤ)
    (acc : String) : (mkAccountResult allPosts nowAcc acc).account = acc := by
  simp only [mkAccountResult]

theorem newsToPosts_nil (parseTs : String → Option ℤ) (buildId : String → String)
    (baseNow : ℤ) : newsToPosts parseTs buildId baseNow [] = [] := rfl

/-- C9: with no external items, the fixed seed makes the detector's
account output deterministic: two runs at different wall-clock instants
(every `datetime.now` call site may differ) report the same account names
in the same order with the same classification for each. -/
theorem C9_bot_detection_deterministic {σ : Type} (seed : ℕ → σ)
    (rnd : ℤ → ℤ → σ → ℤ × σ) (parseTs1 parseTs2 : String → Option ℤ)
    (buildId : String → String)
    (baseNow1 baseNow2 baseTime1 baseTime2 nowAcc1 nowAcc2 genAt1 genAt2 : ℤ)
    (topic : String) :
    ((runBotDetection seed rnd parseTs1 buildId baseNow1 baseTime1 nowAcc1 genAt1
        none topic).accounts.map fun a => (a.account, a.classification)) =
    ((runBotDetection seed rnd parseTs2 buildId baseNow2 baseTime2 nowAcc2 genAt2
        none topic).accounts.map fun a => (a.account, a.classification)) := by
  letI : ∀ p : Prop, Decidable p := fun p => Classical.propDecidable p
  have hΔ : baseTime2 = baseTime1 + (baseTime2 - baseTime1) := by ring
  simp only [runBotDetection, Option.getD_none, newsToPosts_nil]
  have hP2 : generateSyntheticCoordinatedPosts seed rnd [] topic 36 baseTime2 buildId =
      (generateSyntheticCoordinatedPosts seed rnd [] topic 36 baseTime1 buildId).map
        (shiftPost (baseTime2 - baseTime1)) := by
    conv_lhs => rw [hΔ]
    rw [generate_shift]
  rw [hP2]
  set Δ := baseTime2 - baseTime1 with hΔdef
  set P1 := generateSyntheticCoordinatedPosts seed rnd [] topic 36 baseTime1 buildId
    with hP1def
  by_cases hP : P1 = []
  · rw [hP]
    simp
  · have hPm : ¬ (P1.map (shiftPost Δ) = []) := by
      simpa using hP
    rw [if_neg hP, if_neg hPm]
    simp only
    rw [accountsInOrder_shift]
    have hsort1 := insertionSort_map
      (fun a b : AccountResult => b.botProbability ≤ a.botProbability)
      (fun x y : String =>
        (mkAccountResult P1 nowAcc1 y).botProbability ≤
          (mkAccountResult P1 nowAcc1 x).botProbability)
      (mkAccountResult P1 nowAcc1)
      (fun a b => Iff.rfl) (accountsInOrder P1)
    have hsort2 := insertionSort_map
      (fun a b : AccountResult => b.botProbability ≤ a.botProbability)
      (fun x y : String =>
        (mkAccountResult P1 nowAcc1 y).botProbability ≤
          (mkAccountResult P1 nowAcc1 x).botProbability)
      (mkAccountResult (P1.map (shiftPost Δ)) nowAcc2)
      (fun a b => by
        show (mkAccountResult (P1.map (shiftPost Δ)) nowAcc2 b).botProbability ≤
            (mkAccountResult (P1.map (shiftPost Δ)) nowAcc2 a).botProbability ↔
          (mkAccountResult P1 nowAcc1 b).botProbability ≤
            (mkAccountResult P1 nowAcc1 a).botProbability
        rw [(mkAccountResult_shift Δ P1 nowAcc1 nowAcc2 a).1,
          (mkAccountResult_shift Δ P1 nowAcc1 nowAcc2 b).1])
      (accountsInOrder P1)
    rw [hsort1, hsort2, List.map_map, List.map_map]
    apply List.map_congr_left
    intro acc _
    show ((mkAccountResult P1 nowAcc1 acc).account,
        (mkAccountResult P1 nowAcc1 acc).classification) =
      ((mkAccountResult (P1.map (shiftPost Δ)) nowAcc2 acc).account,
        (mkAccountResult (P1.map (shiftPost Δ)) nowAcc2 acc).classification)
    rw [(mkAccountResult_shift Δ P1 nowAcc1 nowAcc2 acc).2,
      mkAccountResult_account, mkAccountResult_account]
